import Mathlib

/-! openai-admin: cursor pagination, response normalisation, timestamps.

A shallow embedding of the command handlers of `cmd/admin_keys.go`,
`cmd/organizations.go`, `cmd/projects.go` and `cmd/project_api_keys.go`.

* Go `string` is `String`, Go `int`/`int64` is `Int` (no arithmetic that could
  overflow is performed on them, apart from the clock arithmetic of package
  `time`, which is done modulo `2^64` as in Go).
* Go `error` is `GoError` (the message); a `nil` error is `none`.
* The REST client (`client.Get/Post/Delete`) is a parameter: the reply to the
  `k`-th call given the request that was sent.
* The unbounded `for` loop of the list commands is run with an iteration
  budget; a run that exhausts the budget reports `Outcome.running` together
  with everything it has done so far.
* The `context.Context` of a command is only handed on to the client and is
  left out; so is the column alignment of the tab writer: the output of a
  command is the list of lines it writes.
-/

namespace OpenAIAdmin

/-! ## Models of the Go standard library functions used by the commands -/

/-- Go `error` values are represented by their message. -/
abbrev GoError := String

/-- Model of `strconv.Itoa`: the decimal representation of an integer. -/
def Itoa (n : Int) : String := toString n

/-- Model of the `%t` verb of package `fmt`. -/
def fmtBool (b : Bool) : String := if b then "true" else "false"

/-- Upper-case hexadecimal digit, `"0123456789ABCDEF"[n]` of `net/url`. -/
def upperhex (n : Nat) : Char :=
  if n < 10 then Char.ofNat (48 + n) else Char.ofNat (55 + n)

/-- Model of `shouldEscape(c, encodePathSegment)` of `net/url`. -/
def shouldEscape (c : UInt8) : Bool :=
  let n := c.toNat
  if (97 ≤ n ∧ n ≤ 122) ∨ (65 ≤ n ∧ n ≤ 90) ∨ (48 ≤ n ∧ n ≤ 57) then false
  else if n = 45 ∨ n = 95 ∨ n = 46 ∨ n = 126 then false
  else if n = 36 ∨ n = 38 ∨ n = 43 ∨ n = 58 ∨ n = 61 ∨ n = 64 then false
  else true

/-- Model of `url.PathEscape`: every byte of the UTF-8 encoding that
`shouldEscape` flags becomes `%XX`. -/
def PathEscape (s : String) : String :=
  String.mk (s.toUTF8.toList.flatMap fun c =>
    if shouldEscape c then [(37 : Nat).toUInt8.toChar, upperhex (c.toNat / 16), upperhex (c.toNat % 16)]
    else [c.toChar])

/-! ### Package `time` -/

/-- A `*time.Location` as far as this program meets it: `time.Local` (what
`time.Unix` attaches) or `time.UTC`. -/
inductive Location where
  | UTC
  | Local
  deriving DecidableEq, Repr

/-- The process environment the commands read: `os.Getenv`, and the offset
(seconds east of UTC) of the zone `time.Local` at a given Unix time. -/
structure Env where
  Getenv : String → String
  LocalOffset : Int → Int

/-- A `time.Time` with whole seconds: Unix seconds and the attached location. -/
structure Time where
  unixSec : Int
  loc : Location
  deriving DecidableEq, Repr

def secondsPerMinute : Nat := 60
def secondsPerHour : Nat := 60 * secondsPerMinute
def secondsPerDay : Nat := 24 * secondsPerHour
def daysPer400Years : Nat := 365 * 400 + 97
def daysPer100Years : Nat := 365 * 100 + 24
def daysPer4Years : Nat := 365 * 4 + 1

def absoluteZeroYear : Int := -292277022399
def internalYear : Int := 1
/-- The constant `(absoluteZeroYear - internalYear) * 365.2425 * secondsPerDay`. -/
def absoluteToInternal : Int := (absoluteZeroYear - internalYear) * 3652425 * 86400 / 10000
def internalToAbsolute : Int := -absoluteToInternal
def unixToInternal : Int := (1969 * 365 + 1969 / 4 - 1969 / 100 + 1969 / 400) * 86400

/-- Model of `time.Unix(sec, 0)`. -/
def Unix (sec : Int) : Time := { unixSec := sec, loc := Location.Local }

/-- Model of `Time.UTC`. -/
def Time.UTC (t : Time) : Time := { t with loc := Location.UTC }

/-- Zone offset in effect for `t`, as `Time.locabs` looks it up. -/
def Time.offset (env : Env) (t : Time) : Int :=
  match t.loc with
  | Location.UTC => 0
  | Location.Local => env.LocalOffset t.unixSec

/-- Model of `Time.abs`: `uint64(sec + offset + (unixToInternal + internalToAbsolute))`. -/
def Time.abs (env : Env) (t : Time) : Nat :=
  ((t.unixSec + t.offset env + (unixToInternal + internalToAbsolute)) % 2 ^ 64).toNat

/-- Model of `isLeap`. -/
def isLeap (year : Int) : Bool :=
  year.tmod 4 == 0 && (year.tmod 100 != 0 || year.tmod 400 == 0)

/-- The table `daysBefore` of package `time`. -/
def daysBefore : List Nat := [0, 31, 59, 90, 120, 151, 181, 212, 243, 273, 304, 334, 365]

/-- Year and day of year: the first half of `absDate`. -/
def absYearDay (abs : Nat) : Int × Nat :=
  let d := abs / secondsPerDay
  let n := d / daysPer400Years
  let y := 400 * n
  let d := d - daysPer400Years * n
  let n := d / daysPer100Years
  let n := n - n / 4
  let y := y + 100 * n
  let d := d - daysPer100Years * n
  let n := d / daysPer4Years
  let y := y + 4 * n
  let d := d - daysPer4Years * n
  let n := d / 365
  let n := n - n / 4
  let y := y + n
  let d := d - 365 * n
  ((y : Int) + absoluteZeroYear, d)

/-- Month (January = 1) and day of month from the day of year: the second
half of `absDate`. -/
def monthDay (leap : Bool) (yday : Nat) : Nat × Nat :=
  if leap ∧ yday = 31 + 29 - 1 then (2, 29)
  else
    let day := if leap ∧ yday > 31 + 29 - 1 then yday - 1 else yday
    let month := day / 31
    let e := daysBefore.getD (month + 1) 0
    if day ≥ e then (month + 1 + 1, day - e + 1)
    else (month + 1, day - daysBefore.getD month 0 + 1)

/-- Model of `absDate(abs, true)`: year, month, day. -/
def absDate (abs : Nat) : Int × Nat × Nat :=
  let yd := absYearDay abs
  let md := monthDay (isLeap yd.1) yd.2
  (yd.1, md.1, md.2)

/-- Model of `absClock`: hour, minute, second. -/
def absClock (abs : Nat) : Nat × Nat × Nat :=
  let sec := abs % secondsPerDay
  let hour := sec / secondsPerHour
  let sec := sec - hour * secondsPerHour
  let min := sec / secondsPerMinute
  let sec := sec - min * secondsPerMinute
  (hour, min, sec)

/-- The byte `'0' + u`. -/
def utod (u : Nat) : Char := Char.ofNat (48 + u)

/-- Model of `appendInt` of package `time`: decimal digits, zero-padded on
the left to `width`, with a leading `-` for a negative number. -/
def appendInt (x : Int) (width : Nat) : List Char :=
  let u := x.natAbs
  let sign := if x < 0 then ['-'] else []
  if width = 2 ∧ u < 100 then sign ++ [utod (u / 10), utod (u % 10)]
  else if width = 4 ∧ u < 10000 then
    sign ++ [utod (u / 1000), utod (u / 100 % 10), utod (u / 10 % 10), utod (u % 10)]
  else
    let ds := Nat.toDigits 10 u
    sign ++ List.replicate (width - ds.length) '0' ++ ds

/-- Model of `Time.Format(time.RFC3339)` (`appendFormatRFC3339` without
nanoseconds). -/
def Time.FormatRFC3339 (env : Env) (t : Time) : String :=
  let abs := t.abs env
  let offset := t.offset env
  let ymd := absDate abs
  let hms := absClock abs
  let zone := offset.tdiv 60
  String.mk (appendInt ymd.1 4 ++ ['-'] ++ appendInt ymd.2.1 2 ++ ['-'] ++ appendInt ymd.2.2 2
    ++ ['T'] ++ appendInt hms.1 2 ++ [':'] ++ appendInt hms.2.1 2 ++ [':'] ++ appendInt hms.2.2 2
    ++ (if offset = 0 then ['Z']
        else (if zone < 0 then ['-'] else ['+'])
          ++ appendInt (zone.natAbs / 60) 2 ++ [':'] ++ appendInt (zone.natAbs % 60) 2))

/-! ## `cmd/admin_keys.go`: timestamp helpers -/

/-- Source: `formatUnixSeconds`. -/
def formatUnixSeconds (env : Env) (ts : Int) : String :=
  if ts ≤ 0 then ""
  else ((Unix ts).UTC).FormatRFC3339 env

/-- Source: `formatUnixSecondsPtr`; a `nil` pointer is `none`. -/
def formatUnixSecondsPtr (env : Env) (ts : Option Int) : String :=
  match ts with
  | none => ""
  | some v => formatUnixSeconds env v

/-! ## Environment of a command: flags, arguments, the REST client -/

/-- A parsed flag value of a `pflag.FlagSet`. -/
inductive FlagValue where
  | int (v : Int)
  | string (v : String)
  | bool (v : Bool)
  deriving DecidableEq, Repr

/-- Model of `Value.Type()` of `pflag`. -/
def FlagValue.typeName : FlagValue → String
  | FlagValue.int _ => "int"
  | FlagValue.string _ => "string"
  | FlagValue.bool _ => "bool"

/-- The `*cobra.Command` handed to `RunE`, as far as the handlers read it:
the flags defined on it with their parsed values. -/
structure Cmd where
  flags : List (String × FlagValue)

def flagNotDefined (name : String) : GoError := "flag accessed but not defined: " ++ name

def flagWrongType (want : String) (v : FlagValue) : GoError :=
  "trying to get " ++ want ++ " value of flag of type " ++ v.typeName

/-- Model of `cmd.Flags().GetInt`. -/
def Cmd.GetInt (cmd : Cmd) (name : String) : Except GoError Int :=
  match cmd.flags.lookup name with
  | none => Except.error (flagNotDefined name)
  | some (FlagValue.int v) => Except.ok v
  | some v => Except.error (flagWrongType "int" v)

/-- Model of `cmd.Flags().GetString`. -/
def Cmd.GetString (cmd : Cmd) (name : String) : Except GoError String :=
  match cmd.flags.lookup name with
  | none => Except.error (flagNotDefined name)
  | some (FlagValue.string v) => Except.ok v
  | some v => Except.error (flagWrongType "string" v)

/-- Model of `cmd.Flags().GetBool`. -/
def Cmd.GetBool (cmd : Cmd) (name : String) : Except GoError Bool :=
  match cmd.flags.lookup name with
  | none => Except.error (flagNotDefined name)
  | some (FlagValue.bool v) => Except.ok v
  | some v => Except.error (flagWrongType "bool" v)

/-- Source: `AdminKeyCreateParams`. -/
structure AdminKeyCreateParams where
  Name : String
  deriving DecidableEq, Repr

/-- One call of the REST client: method, path, the query parameters set with
`option.WithQuery` (in the order they were added) and the request body. -/
structure Request where
  method : String
  path : String
  query : List (String × String)
  body : Option AdminKeyCreateParams
  deriving DecidableEq, Repr

/-- The cursor a request carries: the value of its `after` parameter, the
empty string when it has none. -/
def Request.after (req : Request) : String := (req.query.lookup "after").getD ""

/-- How a handler invocation stands: `RunE` returned (`none` is a `nil`
error), it panicked, or it is still inside its loop when the iteration budget
of the model ran out. -/
inductive Outcome where
  | returned (err : Option GoError)
  | panicked
  | running
  deriving DecidableEq, Repr

/-- Everything observable of one handler invocation: the lines written to the
command output (for the list commands through the tab writer, flushed on
exit), the REST calls made, both in order, and the outcome. -/
structure Run where
  out : List String
  calls : List Request
  result : Outcome
  deriving DecidableEq, Repr

/-! ## Data model -/

/-- Source: `AdminKeyOwner` (field `Type` is spelt `Type_`). -/
structure AdminKeyOwner where
  Type_ : String
  Object : String
  ID : String
  Name : String
  CreatedAt : Int
  Role : String
  deriving DecidableEq, Repr

/-- Source: `AdminKey`. -/
structure AdminKey where
  Object : String
  ID : String
  Name : String
  RedactedValue : String
  CreatedAt : Int
  LastUsedAt : Option Int
  Owner : Option AdminKeyOwner
  deriving DecidableEq, Repr

/-- Source: `Organization`. -/
structure Organization where
  Object : String
  ID : String
  Created : Int
  Description : String
  IsDefault : Bool
  IsSCIMManaged : Bool
  Name : String
  Personal : Bool
  Role : String
  Title : String
  ParentOrgID : Option String
  deriving DecidableEq, Repr

/-- Source: `Project`. -/
structure Project where
  ID : String
  Object : String
  Name : String
  CreatedAt : Int
  ArchivedAt : Option Int
  Status : String
  deriving DecidableEq, Repr

/-- Source: `ProjectAPIKey`. -/
structure ProjectAPIKey where
  Object : String
  ID : String
  Name : String
  RedactedValue : String
  CreatedAt : Int
  LastUsedAt : Option Int
  deriving DecidableEq, Repr

/-- Source: `AdminKeyListPage`, `OrganizationListPage`, `ProjectListPage`,
`ProjectAPIKeyListPage`: the same envelope around a slice of records. -/
structure ListPage (ρ : Type) where
  Object : String
  Data : List ρ
  FirstID : String
  LastID : String
  HasMore : Bool
  deriving DecidableEq, Repr

abbrev AdminKeyListPage := ListPage AdminKey
abbrev OrganizationListPage := ListPage Organization
abbrev ProjectListPage := ListPage Project
abbrev ProjectAPIKeyListPage := ListPage ProjectAPIKey

/-- Source: `AdminKeyDeleteResponse` and `ProjectAPIKeyDeleteResponse` (same
fields). -/
structure DeleteResponse where
  Object : String
  ID : String
  Deleted : Bool
  deriving DecidableEq, Repr

abbrev AdminKeyDeleteResponse := DeleteResponse
abbrev ProjectAPIKeyDeleteResponse := DeleteResponse

/-- Source: `AdminKeyCreateResponse`. -/
structure AdminKeyCreateResponse extends AdminKey where
  Value : String
  Token : String
  Key : String
  APIKey : String
  deriving Repr

/-- Source: `AdminKeyCreateResponse.TokenValue`. -/
def AdminKeyCreateResponse.TokenValue (r : AdminKeyCreateResponse) : String :=
  if r.Value ≠ "" then r.Value
  else if r.Token ≠ "" then r.Token
  else if r.Key ≠ "" then r.Key
  else r.APIKey

/-- The client of a list command: the reply to its `k`-th `client.Get`
(counting from 0), given the request. -/
abbrev ListClient (ρ : Type) := Nat → Request → Except GoError (ListPage ρ)

/-! ## The list commands -/

/-- The request of one loop iteration: `limit` (and the other base options)
always, `after` only when the cursor is not empty. -/
def listRequest (path : String) (opts : List (String × String)) (after : String) : Request :=
  { method := "GET", path := path,
    query := if after ≠ "" then opts ++ [("after", after)] else opts, body := none }

/-- The `for` loop shared, word for word up to the path, the base query
options, the record type and the row format, by the four list handlers
(`admin_keys.go` 111-158, `organizations.go` 65-101, `projects.go` 64-100,
`project_api_keys.go` 88-122). `after` is the loop variable, `acc` is what the
invocation has written and called so far; one unit of the budget is one
iteration. -/
def listLoop {ρ : Type} (client : ListClient ρ) (path : String) (opts : List (String × String))
    (ID : ρ → String) (row : ρ → String) : Nat → String → Run → Run
  | 0, _, acc => { acc with result := Outcome.running }
  | fuel + 1, after, acc =>
    let req := listRequest path opts after
    let calls := acc.calls ++ [req]
    match client acc.calls.length req with
    | Except.error err => { out := acc.out, calls := calls, result := Outcome.returned (some err) }
    | Except.ok page =>
      let out := acc.out ++ page.Data.map row
      if !page.HasMore || page.Data.length == 0 then
        { out := out, calls := calls, result := Outcome.returned none }
      else if page.LastID ≠ "" then
        listLoop client path opts ID row fuel page.LastID
          { out := out, calls := calls, result := Outcome.running }
      else
        match page.Data[page.Data.length - 1]? with
        | none => { out := out, calls := calls, result := Outcome.panicked }
        | some last =>
          listLoop client path opts ID row fuel (ID last)
            { out := out, calls := calls, result := Outcome.running }

/-- Row format of `adminKeysListCmd`. -/
def adminKeyRow (env : Env) (k : AdminKey) : String :=
  let ownerType := match k.Owner with | some o => o.Type_ | none => ""
  let ownerRole := match k.Owner with | some o => o.Role | none => ""
  let ownerName := match k.Owner with | some o => o.Name | none => ""
  let isAdmin := k.RedactedValue.startsWith "sk-admin"
  k.ID ++ "\t" ++ k.Name ++ "\t" ++ fmtBool isAdmin ++ "\t" ++ formatUnixSeconds env k.CreatedAt
    ++ "\t" ++ formatUnixSecondsPtr env k.LastUsedAt ++ "\t" ++ ownerType ++ "\t" ++ ownerRole
    ++ "\t" ++ ownerName ++ "\n"

/-- Row format of `organizationsListCmd`. -/
def organizationRow (env : Env) (o : Organization) : String :=
  fmtBool o.IsDefault ++ "\t" ++ o.ID ++ "\t" ++ o.Name ++ "\t" ++ o.Title ++ "\t"
    ++ fmtBool o.Personal ++ "\t" ++ o.Role ++ "\t" ++ formatUnixSeconds env o.Created ++ "\t"
    ++ o.Description ++ "\n"

/-- Row format of `projectsListCmd`. -/
def projectRow (env : Env) (p : Project) : String :=
  p.ID ++ "\t" ++ p.Name ++ "\t" ++ p.Status ++ "\t" ++ formatUnixSeconds env p.CreatedAt ++ "\t"
    ++ formatUnixSecondsPtr env p.ArchivedAt ++ "\n"

/-- Row format of `projectsAPIKeysListCmd`. -/
def projectAPIKeyRow (env : Env) (k : ProjectAPIKey) : String :=
  k.ID ++ "\t" ++ k.Name ++ "\t" ++ formatUnixSeconds env k.CreatedAt ++ "\t"
    ++ formatUnixSecondsPtr env k.LastUsedAt ++ "\t" ++ k.RedactedValue ++ "\n"

def adminKeysHeader : String :=
  "ID\tNAME\tIS_ADMIN\tCREATED_AT\tLAST_USED_AT\tOWNER_TYPE\tOWNER_ROLE\tOWNER_NAME\n"

def organizationsHeader : String := "DEFAULT\tID\tNAME\tTITLE\tPERSONAL\tROLE\tCREATED\tDESCRIPTION\n"

def projectsHeader : String := "ID\tNAME\tSTATUS\tCREATED_AT\tARCHIVED_AT\n"

def projectAPIKeysHeader : String := "ID\tNAME\tCREATED_AT\tLAST_USED_AT\tREDACTED_VALUE\n"

/-- The page-size clamp `if limit <= 0 || limit > 100 { limit = 100 }`. -/
def clampLimit (limit : Int) : Int := if limit ≤ 0 ∨ limit > 100 then 100 else limit

/-- An invocation that returns `err` before writing or calling anything. -/
def failEarly (err : GoError) : Run :=
  { out := [], calls := [], result := Outcome.returned (some err) }

/-- Source: `adminKeysListCmd.RunE`. -/
def adminKeysListCmd.RunE (env : Env) (_cmd : Cmd) (client : ListClient AdminKey) (fuel : Nat) : Run :=
  listLoop client "/organization/admin_api_keys" [("limit", Itoa 100)] AdminKey.ID (adminKeyRow env)
    fuel "" { out := [adminKeysHeader], calls := [], result := Outcome.running }

/-- Source: `organizationsListCmd.RunE`. -/
def organizationsListCmd.RunE (env : Env) (cmd : Cmd) (client : ListClient Organization)
    (fuel : Nat) : Run :=
  match cmd.GetInt "limit" with
  | Except.error err => failEarly err
  | Except.ok limit =>
    let limit := clampLimit limit
    listLoop client "/organizations" [("limit", Itoa limit)] Organization.ID (organizationRow env)
      fuel "" { out := [organizationsHeader], calls := [], result := Outcome.running }

/-- Source: `projectsListCmd.RunE`. -/
def projectsListCmd.RunE (env : Env) (cmd : Cmd) (client : ListClient Project) (fuel : Nat) : Run :=
  match cmd.GetBool "include-archived" with
  | Except.error err => failEarly err
  | Except.ok includeArchived =>
    match cmd.GetInt "limit" with
    | Except.error err => failEarly err
    | Except.ok limit =>
      let limit := clampLimit limit
      listLoop client "/organization/projects"
        [("limit", Itoa limit), ("include_archived", fmtBool includeArchived)]
        Project.ID (projectRow env)
        fuel "" { out := [projectsHeader], calls := [], result := Outcome.running }

/-- Source: `resolveProjectID`. -/
def resolveProjectID (env : Env) (cmd : Cmd) : Except GoError String :=
  match cmd.GetString "project-id" with
  | Except.error err => Except.error err
  | Except.ok projectID =>
    let projectID := if projectID = "" then env.Getenv "OPENAI_PROJECT_ID" else projectID
    if projectID = "" then Except.error "--project-id is required (or set OPENAI_PROJECT_ID)"
    else Except.ok projectID

/-- Source: `projectsAPIKeysListCmd.RunE`. -/
def projectsAPIKeysListCmd.RunE (env : Env) (cmd : Cmd) (client : ListClient ProjectAPIKey)
    (fuel : Nat) : Run :=
  match resolveProjectID env cmd with
  | Except.error err => failEarly err
  | Except.ok projectID =>
    match cmd.GetInt "limit" with
    | Except.error err => failEarly err
    | Except.ok limit =>
      let limit := clampLimit limit
      listLoop client ("/organization/projects/" ++ PathEscape projectID ++ "/api_keys")
        [("limit", Itoa limit)] ProjectAPIKey.ID (projectAPIKeyRow env)
        fuel "" { out := [projectAPIKeysHeader], calls := [], result := Outcome.running }

/-! ## Delete and create -/

/-- The line `fmt.Fprintf(out, "DELETED\t%t\t%s\n", deleted, id)`. -/
def deletedLine (deleted : Bool) (id : String) : String :=
  "DELETED\t" ++ fmtBool deleted ++ "\t" ++ id ++ "\n"

/-- Source: `adminKeysDeleteCmd.RunE`; `args[0]` on an empty slice panics
(`cobra.ExactArgs(1)` keeps that from happening). -/
def adminKeysDeleteCmd.RunE (_cmd : Cmd) (args : List String)
    (client : Request → Except GoError AdminKeyDeleteResponse) : Run :=
  match args with
  | [] => { out := [], calls := [], result := Outcome.panicked }
  | keyID :: _ =>
    let path := "/organization/admin_api_keys/" ++ PathEscape keyID
    let req : Request := { method := "DELETE", path := path, query := [], body := none }
    match client req with
    | Except.error err => { out := [], calls := [req], result := Outcome.returned (some err) }
    | Except.ok res =>
      let id := if res.ID = "" then keyID else res.ID
      { out := [deletedLine res.Deleted id], calls := [req], result := Outcome.returned none }

/-- Source: `projectsAPIKeysDeleteCmd.RunE`. -/
def projectsAPIKeysDeleteCmd.RunE (env : Env) (cmd : Cmd) (args : List String)
    (client : Request → Except GoError ProjectAPIKeyDeleteResponse) : Run :=
  match resolveProjectID env cmd with
  | Except.error err => failEarly err
  | Except.ok projectID =>
    match args with
    | [] => { out := [], calls := [], result := Outcome.panicked }
    | keyID :: _ =>
      let path := "/organization/projects/" ++ PathEscape projectID ++ "/api_keys/"
        ++ PathEscape keyID
      let req : Request := { method := "DELETE", path := path, query := [], body := none }
      match client req with
      | Except.error err => { out := [], calls := [req], result := Outcome.returned (some err) }
      | Except.ok res =>
        let id := if res.ID = "" then keyID else res.ID
        { out := [deletedLine res.Deleted id], calls := [req], result := Outcome.returned none }

def missingKeyValue : GoError :=
  "create response did not include a key value (expected one of: value, token, key, api_key)"

/-- Source: `adminKeysCreateCmd.RunE`. -/
def adminKeysCreateCmd.RunE (cmd : Cmd)
    (client : Request → Except GoError AdminKeyCreateResponse) : Run :=
  match cmd.GetString "name" with
  | Except.error err => failEarly err
  | Except.ok name =>
    if name = "" then failEarly "--name is required"
    else
      let params : AdminKeyCreateParams := { Name := name }
      let req : Request :=
        { method := "POST", path := "/organization/admin_api_keys", query := [], body := some params }
      match client req with
      | Except.error err => { out := [], calls := [req], result := Outcome.returned (some err) }
      | Except.ok created =>
        let value := created.TokenValue
        if value = "" then
          { out := [], calls := [req], result := Outcome.returned (some missingKeyValue) }
        else { out := [value ++ "\n"], calls := [req], result := Outcome.returned none }

/-! ## The four resource families -/

/-- The resource families with a list command. -/
inductive Family where
  | adminKeys
  | organizations
  | projects
  | projectAPIKeys
  deriving DecidableEq, Repr

/-- The record type a family lists. -/
def Family.Record : Family → Type
  | Family.adminKeys => AdminKey
  | Family.organizations => Organization
  | Family.projects => Project
  | Family.projectAPIKeys => ProjectAPIKey

/-- The `ID` field of a family's record. -/
def Family.ID : (fam : Family) → fam.Record → String
  | Family.adminKeys => AdminKey.ID
  | Family.organizations => Organization.ID
  | Family.projects => Project.ID
  | Family.projectAPIKeys => ProjectAPIKey.ID

/-- The header line a family's list command writes first. -/
def Family.header : Family → String
  | Family.adminKeys => adminKeysHeader
  | Family.organizations => organizationsHeader
  | Family.projects => projectsHeader
  | Family.projectAPIKeys => projectAPIKeysHeader

/-- The line a family's list command writes for one record. -/
def Family.row (env : Env) : (fam : Family) → fam.Record → String
  | Family.adminKeys => adminKeyRow env
  | Family.organizations => organizationRow env
  | Family.projects => projectRow env
  | Family.projectAPIKeys => projectAPIKeyRow env

/-- The list command of a family. -/
def runList (env : Env) (cmd : Cmd) : (fam : Family) → ListClient fam.Record → Nat → Run
  | Family.adminKeys => adminKeysListCmd.RunE env cmd
  | Family.organizations => organizationsListCmd.RunE env cmd
  | Family.projects => projectsListCmd.RunE env cmd
  | Family.projectAPIKeys => projectsAPIKeysListCmd.RunE env cmd

/-- The flags (and, for project API keys, the project identifier) a family's
list command reads before its first fetch are all available. -/
def flagsReady (env : Env) (cmd : Cmd) : Family → Prop
  | Family.adminKeys => True
  | Family.organizations => ∃ n, cmd.GetInt "limit" = Except.ok n
  | Family.projects =>
    (∃ b, cmd.GetBool "include-archived" = Except.ok b) ∧ ∃ n, cmd.GetInt "limit" = Except.ok n
  | Family.projectAPIKeys =>
    (∃ id, resolveProjectID env cmd = Except.ok id) ∧ ∃ n, cmd.GetInt "limit" = Except.ok n

/-! ## Specification-side notions -/

/-- The cursor-advancement rule in the words of the specification: the
page's `last_id` when it is not empty, otherwise the `id` of the last record
of the page (the empty string for a page without records). -/
def nextCursor {ρ : Type} (ID : ρ → String) (p : ListPage ρ) : String :=
  if p.LastID ≠ "" then p.LastID else (p.Data.getLast?.map ID).getD ""

/-- The walk goes on after this page: `has_more` and at least one record. -/
def ListPage.continues {ρ : Type} (p : ListPage ρ) : Prop := p.HasMore = true ∧ p.Data ≠ []

/-- The page size a family's list command sends as `limit`, in terms of the
`--limit` flag value `n`: the clamp for the three commands that define the
flag; `adminKeysListCmd` defines no such flag and always sends 100. -/
def pageLimit (n : Int) : Family → Int
  | Family.adminKeys => 100
  | _ => clampLimit n

/-- A line handed to the tabular output: the cells of a row separated by
tabs, ended by a newline. -/
def tabbedLine (cells : List String) : String := String.intercalate "\t" cells ++ "\n"

/-- In the words of the specification, `line` is the row of the record with
identifier `id` under the header row `header`: both are tabbed lines with the
same number of cells (rows are of fixed width), and the cell of `line` in the
column that the header names `ID` is `id`. Such a line is not empty and ends
in a newline. -/
def IsRowFor (header id line : String) : Prop :=
  ∃ (hcells cells : List String) (i : Nat), header = tabbedLine hcells ∧ line = tabbedLine cells ∧
    cells.length = hcells.length ∧ hcells[i]? = some "ID" ∧ cells[i]? = some id

/-! ## RFC 3339 timestamps (specification side)

The reader of a timestamp, written from RFC 3339 section 5.6: `date-fullyear`
is exactly four digits, `date-month`, `date-mday`, `time-hour`, `time-minute`
and `time-second` exactly two, an optional `time-secfrac`, and `time-offset`
is `Z` or a signed `hh:mm`. -/

/-- What an RFC 3339 timestamp denotes: whole seconds since
1970-01-01T00:00:00Z, the digits of the fraction of a second, and the offset
from UTC (in minutes) it was written with. -/
structure Instant where
  unix : Int
  frac : List Nat
  offset : Int
  deriving DecidableEq, Repr

/-- The value of a decimal digit. -/
def digitVal (c : Char) : Option Nat :=
  if 48 ≤ c.toNat ∧ c.toNat ≤ 57 then some (c.toNat - 48) else none

/-- Exactly two digits. -/
def digits2 (a b : Char) : Option Nat := do
  let x ← digitVal a
  let y ← digitVal b
  pure (10 * x + y)

/-- Exactly four digits. -/
def digits4 (a b c d : Char) : Option Nat := do
  let x ← digits2 a b
  let y ← digits2 c d
  pure (100 * x + y)

/-- Leap years of the Gregorian calendar. -/
def leapYear (y : Int) : Bool := decide (y % 4 = 0 ∧ (y % 100 ≠ 0 ∨ y % 400 = 0))

/-- Number of days of month `m` (1 to 12). -/
def daysInMonth (leap : Bool) (m : Nat) : Nat :=
  if m = 2 then (if leap then 29 else 28)
  else if m = 4 ∨ m = 6 ∨ m = 9 ∨ m = 11 then 30
  else 31

/-- Days of the months of the year before month `m`. -/
def daysBeforeMonth (leap : Bool) (m : Nat) : Nat :=
  ((List.range (m - 1)).map fun i => daysInMonth leap (i + 1)).sum

/-- Days from 1970-01-01 to the day `y-m-d` of the proleptic Gregorian
calendar. -/
def daysFromCivil (y : Int) (m d : Nat) : Int :=
  365 * (y - 1) + (y - 1) / 4 - (y - 1) / 100 + (y - 1) / 400 - 719162
    + (daysBeforeMonth (leapYear y) m : Nat) + ((d - 1 : Nat) : Int)

/-- An optional `time-secfrac`: a dot and at least one digit. -/
def parseFrac (cs : List Char) : Option (List Nat × List Char) :=
  match cs with
  | [] => some ([], [])
  | c :: rest =>
    if c = '.' then
      let ds := rest.takeWhile fun x => (digitVal x).isSome
      if ds = [] then none
      else some (ds.map fun x => x.toNat - 48, rest.dropWhile fun x => (digitVal x).isSome)
    else some ([], c :: rest)

/-- A `time-offset`, in minutes east of UTC. -/
def parseOffset (cs : List Char) : Option Int :=
  match cs with
  | [z] => if z = 'Z' ∨ z = 'z' then some 0 else none
  | [sg, h1, h2, c, m1, m2] =>
    if c = ':' ∧ (sg = '+' ∨ sg = '-') then do
      let h ← digits2 h1 h2
      let m ← digits2 m1 m2
      if h < 24 ∧ m < 60 then
        pure (if sg = '-' then - ((60 * h + m : Nat) : Int) else ((60 * h + m : Nat) : Int))
      else none
    else none
  | _ => none

/-- The instant of a calendar date, time of day and offset. -/
def civilToUnix (y : Int) (m d h n s : Nat) (offset : Int) : Int :=
  daysFromCivil y m d * 86400 + ((h * 3600 + n * 60 + s : Nat) : Int) - offset * 60

/-- Reads an RFC 3339 `date-time`; `none` when the text is not one. -/
def parseRFC3339 (text : String) : Option Instant :=
  match text.data with
  | y1 :: y2 :: y3 :: y4 :: c1 :: m1 :: m2 :: c2 :: d1 :: d2 :: t :: h1 :: h2 :: c3 :: n1 :: n2
      :: c4 :: s1 :: s2 :: rest =>
    if c1 = '-' ∧ c2 = '-' ∧ (t = 'T' ∨ t = 't') ∧ c3 = ':' ∧ c4 = ':' then do
      let y ← digits4 y1 y2 y3 y4
      let m ← digits2 m1 m2
      let d ← digits2 d1 d2
      let h ← digits2 h1 h2
      let n ← digits2 n1 n2
      let s ← digits2 s1 s2
      let fr ← parseFrac rest
      let off ← parseOffset fr.2
      if 1 ≤ m ∧ m ≤ 12 ∧ 1 ≤ d ∧ d ≤ daysInMonth (leapYear y) m ∧ h < 24 ∧ n < 60 ∧ s < 60 then
        pure { unix := civilToUnix y m d h n s off, frac := fr.1, offset := off }
      else none
    else none
  | _ => none

/-! ## Sample data -/

def sampleEnv : Env := { Getenv := fun _ => "", LocalOffset := fun _ => 3600 }

def sampleCmd : Cmd :=
  { flags := [("limit", FlagValue.int 50), ("include-archived", FlagValue.bool false),
      ("project-id", FlagValue.string "proj_1"), ("name", FlagValue.string "ci")] }

def sampleOrg (id : String) : Organization :=
  { Object := "organization", ID := id, Created := 1700000000, Description := "", IsDefault := false,
    IsSCIMManaged := false, Name := "acme", Personal := false, Role := "owner", Title := "Acme",
    ParentOrgID := none }

def samplePage (ids : List String) (lastID : String) (hasMore : Bool) : ListPage Organization :=
  { Object := "list", Data := ids.map sampleOrg, FirstID := "", LastID := lastID, HasMore := hasMore }

def sampleAdminKey : AdminKey :=
  { Object := "organization.admin_api_key", ID := "key_1", Name := "ci",
    RedactedValue := "sk-admin...abc", CreatedAt := 1700000000, LastUsedAt := none, Owner := none }

/-- A create response with both the canonical and a legacy field populated. -/
def sampleCreated : AdminKeyCreateResponse :=
  { toAdminKey := sampleAdminKey, Value := "sk-admin-canonical", Token := "sk-admin-legacy",
    Key := "", APIKey := "" }

/-- A delete acknowledgment without `id`. -/
def sampleAck : DeleteResponse := { Object := "", ID := "", Deleted := true }

/-- An empty page with `has_more=false`. -/
def sampleLastPage {ρ : Type} : ListPage ρ :=
  { Object := "list", Data := [], FirstID := "", LastID := "", HasMore := false }

/-- Serves two pages, then an empty last page with `has_more=false`. -/
def sampleClient : ListClient Organization := fun k _ =>
  match k with
  | 0 => Except.ok (samplePage ["org_a", "org_b"] "org_b" true)
  | 1 => Except.ok (samplePage ["org_c"] "" true)
  | _ => Except.ok (samplePage [] "" false)

/-- Serves one page, then fails. -/
def sampleFailingClient : ListClient Organization := fun k _ =>
  match k with
  | 0 => Except.ok (samplePage ["org_a", "org_b"] "org_b" true)
  | _ => Except.error "503 Service Unavailable"

/-- Serves an empty first page that claims `has_more=true`. -/
def sampleEmptyClient : ListClient Organization := fun _ _ =>
  Except.ok (samplePage [] "" true)

/-! ## Proofs -/

/-! ## One iteration of the loop -/

section Loop

variable {ρ : Type} (client : ListClient ρ) (path : String) (opts : List (String × String))
  (ID : ρ → String) (row : ρ → String)

theorem listLoop_error (fuel : Nat) (after : String) (acc : Run) (e : GoError)
    (h : client acc.calls.length (listRequest path opts after) = Except.error e) :
    listLoop client path opts ID row (fuel + 1) after acc =
      { out := acc.out, calls := acc.calls ++ [listRequest path opts after],
        result := Outcome.returned (some e) } := by
  simp [listLoop, h]

theorem listLoop_stop (fuel : Nat) (after : String) (acc : Run) (p : ListPage ρ)
    (h : client acc.calls.length (listRequest path opts after) = Except.ok p)
    (hstop : p.HasMore = false ∨ p.Data = []) :
    listLoop client path opts ID row (fuel + 1) after acc =
      { out := acc.out ++ p.Data.map row, calls := acc.calls ++ [listRequest path opts after],
        result := Outcome.returned none } := by
  rcases hstop with hs | hs <;> simp [listLoop, h, hs]

theorem listLoop_more (fuel : Nat) (after : String) (acc : Run) (p : ListPage ρ)
    (h : client acc.calls.length (listRequest path opts after) = Except.ok p)
    (hmore : p.continues) :
    listLoop client path opts ID row (fuel + 1) after acc =
      listLoop client path opts ID row fuel (nextCursor ID p)
        { out := acc.out ++ p.Data.map row, calls := acc.calls ++ [listRequest path opts after],
          result := Outcome.running } := by
  obtain ⟨hm, hd⟩ := hmore
  have hlen : p.Data.length ≠ 0 := by simpa using hd
  by_cases hl : p.LastID = ""
  · obtain ⟨ys, a, hya⟩ : ∃ ys a, p.Data = ys ++ [a] := by
      rcases List.eq_nil_or_concat p.Data with h0 | ⟨ys, a, h1⟩
      · exact absurd h0 hd
      · exact ⟨ys, a, by simpa using h1⟩
    simp [listLoop, h, hm, hlen, hl, nextCursor, hya]
  · simp [listLoop, h, hm, hlen, hl, nextCursor]

theorem listLoop_cases (fuel : Nat) (after : String) (acc : Run) :
    (∃ e, client acc.calls.length (listRequest path opts after) = Except.error e ∧
      listLoop client path opts ID row (fuel + 1) after acc =
        { out := acc.out, calls := acc.calls ++ [listRequest path opts after],
          result := Outcome.returned (some e) }) ∨
    (∃ p, client acc.calls.length (listRequest path opts after) = Except.ok p ∧ ¬ p.continues ∧
      listLoop client path opts ID row (fuel + 1) after acc =
        { out := acc.out ++ p.Data.map row, calls := acc.calls ++ [listRequest path opts after],
          result := Outcome.returned none }) ∨
    (∃ p, client acc.calls.length (listRequest path opts after) = Except.ok p ∧ p.continues ∧
      listLoop client path opts ID row (fuel + 1) after acc =
        listLoop client path opts ID row fuel (nextCursor ID p)
          { out := acc.out ++ p.Data.map row, calls := acc.calls ++ [listRequest path opts after],
            result := Outcome.running }) := by
  cases h : client acc.calls.length (listRequest path opts after) with
  | error e => exact Or.inl ⟨e, rfl, listLoop_error client path opts ID row fuel after acc e h⟩
  | ok p =>
    by_cases hc : p.continues
    · exact Or.inr (Or.inr ⟨p, rfl, hc, listLoop_more client path opts ID row fuel after acc p h hc⟩)
    · refine Or.inr (Or.inl ⟨p, rfl, hc, listLoop_stop client path opts ID row fuel after acc p h ?_⟩)
      by_cases hm : p.HasMore = true
      · right
        by_contra hd
        exact hc ⟨hm, hd⟩
      · left
        simpa using hm

/-- The walk over pages `ps ++ [last]`, every page of `ps` continuing and
`last` stopping: rows of all records in order, one request per page with the
cursors of the advancement rule, and a `nil` return. -/
theorem listLoop_pages (ps : List (ListPage ρ)) (last : ListPage ρ) :
    ∀ (fuel : Nat) (after : String) (acc : Run),
      (∀ i req p, (ps ++ [last])[i]? = some p → client (acc.calls.length + i) req = Except.ok p) →
      (∀ p ∈ ps, p.continues) →
      (last.HasMore = false ∨ last.Data = []) →
      ps.length < fuel →
      listLoop client path opts ID row fuel after acc =
        { out := acc.out ++ ((ps ++ [last]).flatMap fun p => p.Data).map row,
          calls := acc.calls ++ (after :: ps.map (nextCursor ID)).map (listRequest path opts),
          result := Outcome.returned none } := by
  induction ps with
  | nil =>
    intro fuel after acc hserve _ hlast hfuel
    obtain ⟨f, rfl⟩ : ∃ f, fuel = f + 1 := ⟨fuel - 1, by simp at hfuel; omega⟩
    have h0 := hserve 0 (listRequest path opts after) last (by simp)
    rw [listLoop_stop client path opts ID row f after acc last (by simpa using h0) hlast]
    simp
  | cons p ps ih =>
    intro fuel after acc hserve hmore hlast hfuel
    obtain ⟨f, rfl⟩ : ∃ f, fuel = f + 1 := ⟨fuel - 1, by simp at hfuel; omega⟩
    have h0 := hserve 0 (listRequest path opts after) p (by simp)
    rw [listLoop_more client path opts ID row f after acc p (by simpa using h0)
      (hmore p (by simp))]
    rw [ih f (nextCursor ID p) _ ?_ (fun q hq => hmore q (by simp [hq])) hlast
      (by simp at hfuel; omega)]
    · simp [List.append_assoc]
    · intro i req q hq
      have := hserve (i + 1) req q (by simpa using hq)
      simpa [Nat.add_assoc, Nat.add_comm 1 i] using this

/-- The walk over continuing pages `ps` followed by a failing fetch. -/
theorem listLoop_fail (ps : List (ListPage ρ)) (e : GoError) :
    ∀ (fuel : Nat) (after : String) (acc : Run),
      (∀ i req p, ps[i]? = some p → client (acc.calls.length + i) req = Except.ok p) →
      (∀ req, client (acc.calls.length + ps.length) req = Except.error e) →
      (∀ p ∈ ps, p.continues) →
      ps.length < fuel →
      listLoop client path opts ID row fuel after acc =
        { out := acc.out ++ (ps.flatMap fun p => p.Data).map row,
          calls := acc.calls ++ (after :: ps.map (nextCursor ID)).map (listRequest path opts),
          result := Outcome.returned (some e) } := by
  induction ps with
  | nil =>
    intro fuel after acc _ herr _ hfuel
    obtain ⟨f, rfl⟩ : ∃ f, fuel = f + 1 := ⟨fuel - 1, by simp at hfuel; omega⟩
    have h0 := herr (listRequest path opts after)
    rw [listLoop_error client path opts ID row f after acc e (by simpa using h0)]
    simp
  | cons p ps ih =>
    intro fuel after acc hserve herr hmore hfuel
    obtain ⟨f, rfl⟩ : ∃ f, fuel = f + 1 := ⟨fuel - 1, by simp at hfuel; omega⟩
    have h0 := hserve 0 (listRequest path opts after) p (by simp)
    rw [listLoop_more client path opts ID row f after acc p (by simpa using h0)
      (hmore p (by simp))]
    rw [ih f (nextCursor ID p) _ ?_ ?_ (fun q hq => hmore q (by simp [hq]))
      (by simp at hfuel; omega)]
    · simp [List.append_assoc]
    · intro i req q hq
      have := hserve (i + 1) req q (by simpa using hq)
      simpa [Nat.add_assoc, Nat.add_comm 1 i] using this
    · intro req
      have := herr req
      simpa [Nat.add_assoc, Nat.add_comm 1] using this

/-- The bounds check of `page.Data[len(page.Data)-1]` never fails. -/
theorem listLoop_no_panic :
    ∀ (fuel : Nat) (after : String) (acc : Run),
      (listLoop client path opts ID row fuel after acc).result ≠ Outcome.panicked := by
  intro fuel
  induction fuel with
  | zero => intro after acc; simp [listLoop]
  | succ f ih =>
    intro after acc
    rcases listLoop_cases client path opts ID row f after acc with
      ⟨e, _, h⟩ | ⟨p, _, _, h⟩ | ⟨p, _, _, h⟩
    · rw [h]; simp
    · rw [h]; simp
    · rw [h]; exact ih _ _

/-- What the loop has called extends what had been called before it. -/
theorem listLoop_calls_extend :
    ∀ (fuel : Nat) (after : String) (acc : Run),
      ∃ more, (listLoop client path opts ID row fuel after acc).calls = acc.calls ++ more := by
  intro fuel
  induction fuel with
  | zero => intro after acc; exact ⟨[], by simp [listLoop]⟩
  | succ f ih =>
    intro after acc
    rcases listLoop_cases client path opts ID row f after acc with
      ⟨e, _, h⟩ | ⟨p, _, _, h⟩ | ⟨p, _, _, h⟩
    · exact ⟨[listRequest path opts after], by rw [h]⟩
    · exact ⟨[listRequest path opts after], by rw [h]⟩
    · obtain ⟨more, hm⟩ := ih (nextCursor ID p)
        { out := acc.out ++ p.Data.map row, calls := acc.calls ++ [listRequest path opts after],
          result := Outcome.running }
      exact ⟨listRequest path opts after :: more, by rw [h, hm]; simp⟩

/-- The first request of the loop carries the current cursor. -/
theorem listLoop_first_call (fuel : Nat) (after : String) (acc : Run) :
    (listLoop client path opts ID row (fuel + 1) after acc).calls[acc.calls.length]? =
      some (listRequest path opts after) := by
  rcases listLoop_cases client path opts ID row fuel after acc with
    ⟨e, _, h⟩ | ⟨p, _, _, h⟩ | ⟨p, _, _, h⟩
  · rw [h]; simp
  · rw [h]; simp
  · obtain ⟨more, hm⟩ := listLoop_calls_extend client path opts ID row fuel (nextCursor ID p)
      { out := acc.out ++ p.Data.map row, calls := acc.calls ++ [listRequest path opts after],
        result := Outcome.running }
    rw [h, hm]
    show (acc.calls ++ [listRequest path opts after] ++ more)[acc.calls.length]? = _
    rw [List.getElem?_append_left (by simp), List.getElem?_concat_length]

/-- After a continuing page, the next request carries the cursor of the
advancement rule. -/
theorem listLoop_next_call :
    ∀ (fuel : Nat) (after : String) (acc : Run) (i : Nat) (req : Request) (p : ListPage ρ),
      acc.calls.length ≤ i →
      (listLoop client path opts ID row fuel after acc).calls[i]? = some req →
      client i req = Except.ok p → p.continues → i + 1 < acc.calls.length + fuel →
      (listLoop client path opts ID row fuel after acc).calls[i + 1]? =
        some (listRequest path opts (nextCursor ID p)) := by
  intro fuel
  induction fuel with
  | zero => intro after acc i req p hi _ _ _ hlt; omega
  | succ f ih =>
    intro after acc i req p hi hreq hcl hcont hlt
    rcases listLoop_cases client path opts ID row f after acc with
      ⟨e, he, h⟩ | ⟨q, hq, hnc, h⟩ | ⟨q, hq, hc, h⟩
    · rw [h] at hreq
      have hlen : i < (acc.calls ++ [listRequest path opts after]).length := by
        by_contra hge
        have hnone : (acc.calls ++ [listRequest path opts after])[i]? = none :=
          List.getElem?_eq_none (by omega)
        simp [hnone] at hreq
      have hik : i = acc.calls.length := by simp at hlen; omega
      subst hik
      simp at hreq
      subst hreq
      rw [he] at hcl
      cases hcl
    · rw [h] at hreq
      have hlen : i < (acc.calls ++ [listRequest path opts after]).length := by
        by_contra hge
        have hnone : (acc.calls ++ [listRequest path opts after])[i]? = none :=
          List.getElem?_eq_none (by omega)
        simp [hnone] at hreq
      have hik : i = acc.calls.length := by simp at hlen; omega
      subst hik
      simp at hreq
      subst hreq
      rw [hq] at hcl
      cases hcl
      exact absurd hcont hnc
    · rw [h] at hreq ⊢
      by_cases hik : i = acc.calls.length
      · subst hik
        obtain ⟨more, hm⟩ := listLoop_calls_extend client path opts ID row f (nextCursor ID q)
          { out := acc.out ++ q.Data.map row, calls := acc.calls ++ [listRequest path opts after],
            result := Outcome.running }
        rw [hm] at hreq
        have hmid : (acc.calls ++ [listRequest path opts after] ++ more)[acc.calls.length]? =
            some (listRequest path opts after) := by
          rw [List.getElem?_append_left (by simp), List.getElem?_concat_length]
        have hreq2 : req = listRequest path opts after := by
          have h3 := hreq.symm.trans hmid
          exact Option.some.inj h3
        subst hreq2
        rw [hq] at hcl
        cases hcl
        obtain ⟨g, rfl⟩ : ∃ g, f = g + 1 := ⟨f - 1, by omega⟩
        have := listLoop_first_call client path opts ID row g (nextCursor ID p)
          { out := acc.out ++ p.Data.map row, calls := acc.calls ++ [listRequest path opts after],
            result := Outcome.running }
        simpa using this
      · exact ih (nextCursor ID q) _ i req p (by simp; omega) hreq hcl hcont (by simp; omega)

/-- Every request made by the loop is a list request of this path and
these base options. -/
theorem listLoop_calls_mem :
    ∀ (fuel : Nat) (after : String) (acc : Run) (req : Request),
      req ∈ (listLoop client path opts ID row fuel after acc).calls →
      req ∈ acc.calls ∨ ∃ a, req = listRequest path opts a := by
  intro fuel
  induction fuel with
  | zero => intro after acc req h; left; simpa [listLoop] using h
  | succ f ih =>
    intro after acc req hmem
    rcases listLoop_cases client path opts ID row f after acc with
      ⟨e, _, h⟩ | ⟨p, _, _, h⟩ | ⟨p, _, _, h⟩
    · rw [h] at hmem
      simp at hmem
      rcases hmem with hm | hm
      · exact Or.inl hm
      · exact Or.inr ⟨after, hm⟩
    · rw [h] at hmem
      simp at hmem
      rcases hmem with hm | hm
      · exact Or.inl hm
      · exact Or.inr ⟨after, hm⟩
    · rw [h] at hmem
      rcases ih _ _ req hmem with hm | hm
      · simp at hm
        rcases hm with hm | hm
        · exact Or.inl hm
        · exact Or.inr ⟨after, hm⟩
      · exact Or.inr hm

/-- An error returned by the loop is the error of one of its fetches. -/
theorem listLoop_error_origin :
    ∀ (fuel : Nat) (after : String) (acc : Run) (e : GoError),
      (listLoop client path opts ID row fuel after acc).result = Outcome.returned (some e) →
      ∃ i req, (listLoop client path opts ID row fuel after acc).calls[i]? = some req ∧
        client i req = Except.error e := by
  intro fuel
  induction fuel with
  | zero => intro after acc e h; simp [listLoop] at h
  | succ f ih =>
    intro after acc e hres
    rcases listLoop_cases client path opts ID row f after acc with
      ⟨e1, he, h⟩ | ⟨p, _, _, h⟩ | ⟨p, _, _, h⟩
    · rw [h] at hres ⊢
      simp at hres
      subst hres
      exact ⟨acc.calls.length, listRequest path opts after, by simp, he⟩
    · rw [h] at hres
      simp at hres
    · rw [h] at hres ⊢
      exact ih _ _ e hres

end Loop

/-! ## From the loop to the four commands -/

theorem lookup_after_listRequest (path : String) (opts : List (String × String)) (a : String)
    (h : opts.lookup "after" = none) : (listRequest path opts a).after = a := by
  unfold Request.after listRequest
  by_cases ha : a = ""
  · simp [ha, h]
  · simp [ha, List.lookup_append, h]

theorem lookup_limit_listRequest (path : String) (opts : List (String × String)) (a v : String)
    (h : opts.lookup "limit" = some v) : (listRequest path opts a).query.lookup "limit" = some v := by
  unfold listRequest
  by_cases ha : a = ""
  · simp [ha, h]
  · simp [ha, List.lookup_append, h]

/-- With its flags available, a list command is the loop started with the
empty cursor after the header line; its base options hold `limit` and no
`after`. -/
theorem runList_eq_loop (env : Env) (cmd : Cmd) (fam : Family) (hready : flagsReady env cmd fam) :
    ∃ path opts,
      (∀ (client : ListClient fam.Record) (fuel : Nat),
        runList env cmd fam client fuel =
          listLoop client path opts fam.ID (fam.row env) fuel ""
            { out := [fam.header], calls := [], result := Outcome.running }) ∧
      opts.lookup "after" = none ∧
      (∀ n, (fam ≠ Family.adminKeys → cmd.GetInt "limit" = Except.ok n) →
        opts.lookup "limit" = some (Itoa (pageLimit n fam))) := by
  cases fam with
  | adminKeys =>
    refine ⟨"/organization/admin_api_keys", [("limit", Itoa 100)], fun _ _ => rfl, by decide, ?_⟩
    intro n _
    simp [pageLimit, List.lookup]
  | organizations =>
    obtain ⟨n, hn⟩ := hready
    refine ⟨"/organizations", [("limit", Itoa (clampLimit n))], ?_, by simp [List.lookup], ?_⟩
    · intro client fuel
      simp [runList, organizationsListCmd.RunE, hn, Family.ID, Family.row, Family.header]
    · intro m hm
      have := hm (by decide)
      rw [hn] at this
      cases this
      simp [pageLimit, List.lookup]
  | projects =>
    obtain ⟨⟨b, hb⟩, n, hn⟩ := hready
    refine ⟨"/organization/projects",
      [("limit", Itoa (clampLimit n)), ("include_archived", fmtBool b)], ?_, by simp [List.lookup], ?_⟩
    · intro client fuel
      simp [runList, projectsListCmd.RunE, hn, hb, Family.ID, Family.row, Family.header]
    · intro m hm
      have := hm (by decide)
      rw [hn] at this
      cases this
      simp [pageLimit, List.lookup]
  | projectAPIKeys =>
    obtain ⟨⟨id, hid⟩, n, hn⟩ := hready
    refine ⟨"/organization/projects/" ++ PathEscape id ++ "/api_keys",
      [("limit", Itoa (clampLimit n))], ?_, by simp [List.lookup], ?_⟩
    · intro client fuel
      simp [runList, projectsAPIKeysListCmd.RunE, hn, hid, Family.ID, Family.row, Family.header]
    · intro m hm
      have := hm (by decide)
      rw [hn] at this
      cases this
      simp [pageLimit, List.lookup]

theorem tabbedLine_eight (a b c d e f g h : String) :
    tabbedLine [a, b, c, d, e, f, g, h] =
      a ++ "\t" ++ b ++ "\t" ++ c ++ "\t" ++ d ++ "\t" ++ e ++ "\t" ++ f ++ "\t" ++ g ++ "\t" ++ h
        ++ "\n" := by
  simp only [tabbedLine, String.intercalate, String.intercalate.go]

theorem tabbedLine_five (a b c d e : String) :
    tabbedLine [a, b, c, d, e] = a ++ "\t" ++ b ++ "\t" ++ c ++ "\t" ++ d ++ "\t" ++ e ++ "\n" := by
  simp only [tabbedLine, String.intercalate, String.intercalate.go]

/-- Each of the four row formats writes a row for the record it is given: a
tabbed line as wide as the header, with the record's `ID` in the `ID` column. -/
theorem family_row_isRowFor (env : Env) (fam : Family) (r : fam.Record) :
    IsRowFor fam.header (fam.ID r) (fam.row env r) := by
  cases fam with
  | adminKeys =>
    refine ⟨["ID", "NAME", "IS_ADMIN", "CREATED_AT", "LAST_USED_AT", "OWNER_TYPE", "OWNER_ROLE",
        "OWNER_NAME"],
      [AdminKey.ID r, AdminKey.Name r, fmtBool ((AdminKey.RedactedValue r).startsWith "sk-admin"),
        formatUnixSeconds env (AdminKey.CreatedAt r), formatUnixSecondsPtr env (AdminKey.LastUsedAt r),
        (match AdminKey.Owner r with | some o => o.Type_ | none => ""),
        (match AdminKey.Owner r with | some o => o.Role | none => ""),
        (match AdminKey.Owner r with | some o => o.Name | none => "")],
      0, ?_, ?_, by simp, by simp, by simp [Family.ID]⟩
    · rw [tabbedLine_eight]
      simp only [Family.header, adminKeysHeader, organizationsHeader, projectsHeader,
        projectAPIKeysHeader]
      decide
    · rw [tabbedLine_eight]
      cases hown : AdminKey.Owner r <;> simp only [Family.row, adminKeyRow, hown]
  | organizations =>
    refine ⟨["DEFAULT", "ID", "NAME", "TITLE", "PERSONAL", "ROLE", "CREATED", "DESCRIPTION"],
      [fmtBool (Organization.IsDefault r), Organization.ID r, Organization.Name r,
        Organization.Title r, fmtBool (Organization.Personal r), Organization.Role r,
        formatUnixSeconds env (Organization.Created r), Organization.Description r],
      1, ?_, ?_, by simp, by simp, by simp [Family.ID]⟩
    · rw [tabbedLine_eight]
      simp only [Family.header, adminKeysHeader, organizationsHeader, projectsHeader,
        projectAPIKeysHeader]
      decide
    · rw [tabbedLine_eight]
      simp only [Family.row, adminKeyRow, organizationRow]
  | projects =>
    refine ⟨["ID", "NAME", "STATUS", "CREATED_AT", "ARCHIVED_AT"],
      [Project.ID r, Project.Name r, Project.Status r, formatUnixSeconds env (Project.CreatedAt r),
        formatUnixSecondsPtr env (Project.ArchivedAt r)],
      0, ?_, ?_, by simp, by simp, by simp [Family.ID]⟩
    · rw [tabbedLine_five]
      simp only [Family.header, adminKeysHeader, organizationsHeader, projectsHeader,
        projectAPIKeysHeader]
      decide
    · rw [tabbedLine_five]
      simp only [Family.row, projectRow, projectAPIKeyRow]
  | projectAPIKeys =>
    refine ⟨["ID", "NAME", "CREATED_AT", "LAST_USED_AT", "REDACTED_VALUE"],
      [ProjectAPIKey.ID r, ProjectAPIKey.Name r, formatUnixSeconds env (ProjectAPIKey.CreatedAt r),
        formatUnixSecondsPtr env (ProjectAPIKey.LastUsedAt r), ProjectAPIKey.RedactedValue r],
      0, ?_, ?_, by simp, by simp, by simp [Family.ID]⟩
    · rw [tabbedLine_five]
      simp only [Family.header, adminKeysHeader, organizationsHeader, projectsHeader,
        projectAPIKeysHeader]
      decide
    · rw [tabbedLine_five]
      simp only [Family.row, projectRow, projectAPIKeyRow]

/-- The rows written for a list of records are, record by record and in
order, rows for those records. -/
theorem rows_are_rows_for (env : Env) (fam : Family) (records : List fam.Record) :
    List.Forall₂ (fun r line => IsRowFor fam.header (fam.ID r) line) records
      (records.map (fam.row env)) :=
  List.forall₂_map_right_iff.mpr
    (List.forall₂_same.mpr fun r _ => family_row_isRowFor env fam r)

/-! ## Pagination -/

/-- C1: when the client serves pages `ps ++ [last]`, every page of `ps` with
`has_more=true` and at least one record and `last` the first page with
`has_more=false` or no record, each of the four list commands writes, after
its header, exactly one row per record of the concatenation of the pages in
order (the lines after the header correspond one to one, in order, to the
records, each line being a row that carries its record's `id` in the `ID`
column, and being what the command's row format gives for that record), makes
exactly `ps.length + 1` fetches (one per page) and returns `nil`, for every
iteration budget that allows that many iterations. -/
theorem list_emits_all_pages_once (env : Env) (cmd : Cmd) (fam : Family)
    (client : ListClient fam.Record) (ps : List (ListPage fam.Record)) (last : ListPage fam.Record)
    (fuel : Nat) (hready : flagsReady env cmd fam)
    (hserve : ∀ i req p, (ps ++ [last])[i]? = some p → client i req = Except.ok p)
    (hmore : ∀ p ∈ ps, p.HasMore = true ∧ p.Data ≠ [])
    (hlast : last.HasMore = false ∨ last.Data = [])
    (hfuel : ps.length < fuel) :
    (runList env cmd fam client fuel).out =
        fam.header :: ((ps ++ [last]).flatMap fun p => p.Data).map (fam.row env) ∧
      (runList env cmd fam client fuel).calls.length = ps.length + 1 ∧
      (runList env cmd fam client fuel).result = Outcome.returned none ∧
      ∃ rows, (runList env cmd fam client fuel).out = fam.header :: rows ∧
        List.Forall₂ (fun r line => IsRowFor fam.header (fam.ID r) line)
          ((ps ++ [last]).flatMap fun p => p.Data) rows := by
  obtain ⟨path, opts, hrun, -, -⟩ := runList_eq_loop env cmd fam hready
  have hout : (runList env cmd fam client fuel).out =
      fam.header :: ((ps ++ [last]).flatMap fun p => p.Data).map (fam.row env) := by
    rw [hrun client fuel,
      listLoop_pages client path opts fam.ID (fam.row env) ps last fuel "" _
        (by simpa using hserve) hmore hlast hfuel]
    simp
  refine ⟨hout, ?_, ?_, _, hout, rows_are_rows_for env fam _⟩
  · rw [hrun client fuel,
      listLoop_pages client path opts fam.ID (fam.row env) ps last fuel "" _
        (by simpa using hserve) hmore hlast hfuel]
    simp
  · rw [hrun client fuel,
      listLoop_pages client path opts fam.ID (fam.row env) ps last fuel "" _
        (by simpa using hserve) hmore hlast hfuel]

theorem list_emits_all_pages_once_witness :
    (runList sampleEnv sampleCmd Family.organizations sampleClient 3).out =
        Family.organizations.header ::
          (([samplePage ["org_a", "org_b"] "org_b" true, samplePage ["org_c"] "" true]
            ++ [samplePage [] "" false]).flatMap fun p => p.Data).map
            (Family.organizations.row sampleEnv) ∧
      (runList sampleEnv sampleCmd Family.organizations sampleClient 3).calls.length = 2 + 1 ∧
      (runList sampleEnv sampleCmd Family.organizations sampleClient 3).result =
        Outcome.returned none ∧
      ∃ rows, (runList sampleEnv sampleCmd Family.organizations sampleClient 3).out =
          Family.organizations.header :: rows ∧
        List.Forall₂
          (fun r line => IsRowFor Family.organizations.header (Family.organizations.ID r) line)
          (([samplePage ["org_a", "org_b"] "org_b" true, samplePage ["org_c"] "" true]
            ++ [samplePage [] "" false]).flatMap fun p => p.Data) rows :=
  list_emits_all_pages_once sampleEnv sampleCmd Family.organizations sampleClient
    [samplePage ["org_a", "org_b"] "org_b" true, samplePage ["org_c"] "" true]
    (samplePage [] "" false) 3 ⟨50, rfl⟩
    (by
      intro i req p h
      match i with
      | 0 => simp at h; subst h; rfl
      | 1 => simp at h; subst h; rfl
      | 2 => simp at h; subst h; rfl
      | j + 3 => simp at h)
    (by
      intro p hp
      simp at hp
      rcases hp with rfl | rfl <;> simp [samplePage])
    (Or.inl rfl) (by decide)

/-- C2: in each list command the first fetch carries no `after` parameter,
and whenever the page fetched by call `i` has `has_more=true` and at least one
record, call `i + 1` (made as soon as the budget allows another iteration)
carries as cursor that page's `last_id` when it is not empty and otherwise the
`id` of the page's last record. This holds against every client. -/
theorem list_cursor_advances (env : Env) (cmd : Cmd) (fam : Family)
    (client : ListClient fam.Record) (fuel : Nat) (hready : flagsReady env cmd fam) :
    (0 < fuel → ∃ first, (runList env cmd fam client fuel).calls[0]? = some first ∧
        first.query.lookup "after" = none) ∧
      ∀ i req p, (runList env cmd fam client fuel).calls[i]? = some req →
        client i req = Except.ok p → p.HasMore = true → p.Data ≠ [] → i + 1 < fuel →
        ∃ next, (runList env cmd fam client fuel).calls[i + 1]? = some next ∧
          next.after = nextCursor fam.ID p := by
  obtain ⟨path, opts, hrun, hafter, -⟩ := runList_eq_loop env cmd fam hready
  rw [hrun client fuel]
  constructor
  · intro hpos
    obtain ⟨f, rfl⟩ : ∃ f, fuel = f + 1 := ⟨fuel - 1, by omega⟩
    refine ⟨listRequest path opts "", ?_, ?_⟩
    · simpa using listLoop_first_call client path opts fam.ID (fam.row env) f ""
        { out := [fam.header], calls := [], result := Outcome.running }
    · simpa [listRequest] using hafter
  · intro i req p hreq hcl hm hd hlt
    refine ⟨listRequest path opts (nextCursor fam.ID p), ?_,
      lookup_after_listRequest path opts _ hafter⟩
    exact listLoop_next_call client path opts fam.ID (fam.row env) fuel "" _ i req p (by simp)
      hreq hcl ⟨hm, hd⟩ (by simpa using hlt)

theorem list_cursor_advances_witness :
    (0 < 3 → ∃ first,
        (runList sampleEnv sampleCmd Family.organizations sampleClient 3).calls[0]? = some first ∧
        first.query.lookup "after" = none) ∧
      ∀ i req p, (runList sampleEnv sampleCmd Family.organizations sampleClient 3).calls[i]? =
          some req →
        sampleClient i req = Except.ok p → p.HasMore = true → p.Data ≠ [] → i + 1 < 3 →
        ∃ next, (runList sampleEnv sampleCmd Family.organizations sampleClient 3).calls[i + 1]? =
            some next ∧
          next.after = nextCursor Family.organizations.ID p :=
  list_cursor_advances sampleEnv sampleCmd Family.organizations sampleClient 3 ⟨50, rfl⟩

/-- C3: when the first page has no record and `has_more=true`, each list
command writes its header and no row, makes exactly one fetch and returns
`nil`; and against no client at all does a list command panic on the index
`page.Data[len(page.Data)-1]`. The first part holds whatever the page says in
`has_more`, so in particular when it says `true`. -/
theorem list_empty_first_page_stops (env : Env) (cmd : Cmd) (fam : Family)
    (client : ListClient fam.Record) (p : ListPage fam.Record) (fuel : Nat)
    (hready : flagsReady env cmd fam)
    (hfirst : ∀ req, client 0 req = Except.ok p)
    (hempty : p.Data = []) (hfuel : 0 < fuel) :
    (runList env cmd fam client fuel).out = [fam.header] ∧
      (runList env cmd fam client fuel).calls.length = 1 ∧
      (runList env cmd fam client fuel).result = Outcome.returned none ∧
      ∀ (other : ListClient fam.Record) (budget : Nat),
        (runList env cmd fam other budget).result ≠ Outcome.panicked := by
  obtain ⟨path, opts, hrun, -, -⟩ := runList_eq_loop env cmd fam hready
  refine ⟨?_, ?_, ?_, ?_⟩
  · rw [hrun client fuel, listLoop_pages client path opts fam.ID (fam.row env) [] p fuel "" _
      (by
        intro i req q hq
        match i with
        | 0 => simp at hq; subst hq; simpa using hfirst req
        | j + 1 => simp at hq)
      (by simp) (Or.inr hempty) (by simpa using hfuel)]
    simp [hempty]
  · rw [hrun client fuel, listLoop_pages client path opts fam.ID (fam.row env) [] p fuel "" _
      (by
        intro i req q hq
        match i with
        | 0 => simp at hq; subst hq; simpa using hfirst req
        | j + 1 => simp at hq)
      (by simp) (Or.inr hempty) (by simpa using hfuel)]
    simp
  · rw [hrun client fuel, listLoop_pages client path opts fam.ID (fam.row env) [] p fuel "" _
      (by
        intro i req q hq
        match i with
        | 0 => simp at hq; subst hq; simpa using hfirst req
        | j + 1 => simp at hq)
      (by simp) (Or.inr hempty) (by simpa using hfuel)]
  · intro other budget
    rw [hrun other budget]
    exact listLoop_no_panic other path opts fam.ID (fam.row env) budget "" _

theorem list_empty_first_page_stops_witness :
    (runList sampleEnv sampleCmd Family.organizations sampleEmptyClient 7).out =
        [Family.organizations.header] ∧
      (runList sampleEnv sampleCmd Family.organizations sampleEmptyClient 7).calls.length = 1 ∧
      (runList sampleEnv sampleCmd Family.organizations sampleEmptyClient 7).result =
        Outcome.returned none ∧
      ∀ (other : ListClient Family.organizations.Record) (budget : Nat),
        (runList sampleEnv sampleCmd Family.organizations other budget).result ≠ Outcome.panicked :=
  list_empty_first_page_stops sampleEnv sampleCmd Family.organizations sampleEmptyClient
    (samplePage [] "" true) 7 ⟨50, rfl⟩ (fun _ => rfl) rfl (by decide)

/-- C4: when fetches `1..k-1` succeed with pages `ps` (each with
`has_more=true` and at least one record) and fetch `k = ps.length + 1` fails
with error `e`, each list command returns exactly `e`, has made exactly `k`
fetches, and has written, after its header, exactly the rows of the records of
`ps` in order: the lines after the header correspond one to one, in order, to
those records, each line being a row that carries its record's `id` in the
`ID` column, and being what the command's row format gives for that record. -/
theorem list_first_error_aborts (env : Env) (cmd : Cmd) (fam : Family)
    (client : ListClient fam.Record) (ps : List (ListPage fam.Record)) (e : GoError)
    (fuel : Nat) (hready : flagsReady env cmd fam)
    (hserve : ∀ i req p, ps[i]? = some p → client i req = Except.ok p)
    (hfail : ∀ req, client ps.length req = Except.error e)
    (hmore : ∀ p ∈ ps, p.HasMore = true ∧ p.Data ≠ [])
    (hfuel : ps.length < fuel) :
    (runList env cmd fam client fuel).result = Outcome.returned (some e) ∧
      (runList env cmd fam client fuel).calls.length = ps.length + 1 ∧
      (runList env cmd fam client fuel).out =
        fam.header :: (ps.flatMap fun p => p.Data).map (fam.row env) ∧
      ∃ rows, (runList env cmd fam client fuel).out = fam.header :: rows ∧
        List.Forall₂ (fun r line => IsRowFor fam.header (fam.ID r) line)
          (ps.flatMap fun p => p.Data) rows := by
  obtain ⟨path, opts, hrun, -, -⟩ := runList_eq_loop env cmd fam hready
  have hout : (runList env cmd fam client fuel).out =
      fam.header :: (ps.flatMap fun p => p.Data).map (fam.row env) := by
    rw [hrun client fuel,
      listLoop_fail client path opts fam.ID (fam.row env) ps e fuel "" _
        (by simpa using hserve) (by simpa using hfail) hmore hfuel]
    simp
  refine ⟨?_, ?_, hout, _, hout, rows_are_rows_for env fam _⟩
  · rw [hrun client fuel,
      listLoop_fail client path opts fam.ID (fam.row env) ps e fuel "" _
        (by simpa using hserve) (by simpa using hfail) hmore hfuel]
  · rw [hrun client fuel,
      listLoop_fail client path opts fam.ID (fam.row env) ps e fuel "" _
        (by simpa using hserve) (by simpa using hfail) hmore hfuel]
    simp

theorem list_first_error_aborts_witness :
    (runList sampleEnv sampleCmd Family.organizations sampleFailingClient 4).result =
        Outcome.returned (some "503 Service Unavailable") ∧
      (runList sampleEnv sampleCmd Family.organizations sampleFailingClient 4).calls.length =
        1 + 1 ∧
      (runList sampleEnv sampleCmd Family.organizations sampleFailingClient 4).out =
        Family.organizations.header ::
          ([samplePage ["org_a", "org_b"] "org_b" true].flatMap fun p => p.Data).map
            (Family.organizations.row sampleEnv) ∧
      ∃ rows, (runList sampleEnv sampleCmd Family.organizations sampleFailingClient 4).out =
          Family.organizations.header :: rows ∧
        List.Forall₂
          (fun r line => IsRowFor Family.organizations.header (Family.organizations.ID r) line)
          ([samplePage ["org_a", "org_b"] "org_b" true].flatMap fun p => p.Data) rows :=
  list_first_error_aborts sampleEnv sampleCmd Family.organizations sampleFailingClient
    [samplePage ["org_a", "org_b"] "org_b" true] "503 Service Unavailable" 4 ⟨50, rfl⟩
    (by
      intro i req p h
      match i with
      | 0 => simp at h; subst h; rfl
      | j + 1 => simp at h)
    (fun _ => rfl)
    (by
      intro p hp
      simp at hp
      subst hp
      simp [samplePage])
    (by decide)

/-- C9: the `limit` value a list command sends lies in `1..100` and is the
same on every fetch of one walk. Where a page size can be supplied, through
the `--limit` flag of the organizations, projects and project API keys
commands, the value sent is the supplied `n` when `1 ≤ n ≤ 100` and 100 when
`n ≤ 0` or `n > 100`; the admin-keys list command defines no page-size flag
(none is registered for it, and its handler reads none) and sends 100. An
error returned by the command is an error of one of its fetches: none comes
from the page size. -/
theorem list_limit_clamped (env : Env) (cmd : Cmd) (fam : Family)
    (client : ListClient fam.Record) (fuel : Nat) (n : Int) (hready : flagsReady env cmd fam)
    (hn : fam ≠ Family.adminKeys → cmd.GetInt "limit" = Except.ok n) :
    (1 ≤ pageLimit n fam ∧ pageLimit n fam ≤ 100) ∧
      (fam ≠ Family.adminKeys → 1 ≤ n → n ≤ 100 → pageLimit n fam = n) ∧
      (fam ≠ Family.adminKeys → n ≤ 0 ∨ 100 < n → pageLimit n fam = 100) ∧
      (fam = Family.adminKeys → pageLimit n fam = 100) ∧
      (∀ req ∈ (runList env cmd fam client fuel).calls,
        req.query.lookup "limit" = some (Itoa (pageLimit n fam))) ∧
      ∀ e, (runList env cmd fam client fuel).result = Outcome.returned (some e) →
        ∃ i req, (runList env cmd fam client fuel).calls[i]? = some req ∧
          client i req = Except.error e := by
  obtain ⟨path, opts, hrun, -, hlimit⟩ := runList_eq_loop env cmd fam hready
  refine ⟨?_, ?_, ?_, ?_, ?_, ?_⟩
  · cases fam <;> simp only [pageLimit, clampLimit] <;> (try split) <;> omega
  · intro hf h1 h2
    cases fam <;> simp only [pageLimit, clampLimit] <;> (try split) <;> first | omega | exact absurd rfl hf
  · intro hf h1
    cases fam <;> simp only [pageLimit, clampLimit] <;> (try split) <;> omega
  · intro hf
    subst hf
    rfl
  · intro req hreq
    rw [hrun client fuel] at hreq
    rcases listLoop_calls_mem client path opts fam.ID (fam.row env) fuel "" _ req hreq with h | ⟨a, rfl⟩
    · simp at h
    · exact lookup_limit_listRequest path opts a _ (hlimit n hn)
  · intro e he
    rw [hrun client fuel] at he ⊢
    exact listLoop_error_origin client path opts fam.ID (fam.row env) fuel "" _ e he

theorem list_limit_clamped_witness :
    (1 ≤ pageLimit 500 Family.organizations ∧ pageLimit 500 Family.organizations ≤ 100) ∧
      (Family.organizations ≠ Family.adminKeys → 1 ≤ (500 : Int) → (500 : Int) ≤ 100 →
        pageLimit 500 Family.organizations = 500) ∧
      (Family.organizations ≠ Family.adminKeys → (500 : Int) ≤ 0 ∨ 100 < (500 : Int) →
        pageLimit 500 Family.organizations = 100) ∧
      (Family.organizations = Family.adminKeys → pageLimit 500 Family.organizations = 100) ∧
      (∀ req ∈ (runList sampleEnv { flags := [("limit", FlagValue.int 500)] } Family.organizations
          sampleClient 3).calls,
        req.query.lookup "limit" = some (Itoa (pageLimit 500 Family.organizations))) ∧
      ∀ e, (runList sampleEnv { flags := [("limit", FlagValue.int 500)] } Family.organizations
          sampleClient 3).result = Outcome.returned (some e) →
        ∃ i req, (runList sampleEnv { flags := [("limit", FlagValue.int 500)] }
            Family.organizations sampleClient 3).calls[i]? = some req ∧
          sampleClient i req = Except.error e :=
  list_limit_clamped sampleEnv { flags := [("limit", FlagValue.int 500)] } Family.organizations
    sampleClient 3 500 ⟨500, rfl⟩ (fun _ => rfl)

/-! ## Secrets, deletion, project identifier -/

/-- C5: `TokenValue` is the first non-empty field in the order `value`,
`token`, `key`, `api_key` (the empty string when all four are empty), so a
non-empty `value` wins over the other fields; and once the create call has
answered with response `r`, `adminKeysCreateCmd` returns an error having
written nothing exactly when all four fields are empty, and otherwise writes
the one line holding `TokenValue` and returns `nil`. -/
theorem create_reports_first_nonempty_secret (cmd : Cmd)
    (client : Request → Except GoError AdminKeyCreateResponse) (name : String)
    (r : AdminKeyCreateResponse) (hname : cmd.GetString "name" = Except.ok name)
    (hne : name ≠ "") (hpost : ∀ req, client req = Except.ok r) :
    r.TokenValue = ([r.Value, r.Token, r.Key, r.APIKey].find? fun s => decide (s ≠ "")).getD "" ∧
      (r.Value ≠ "" → r.TokenValue = r.Value) ∧
      (((∃ e, (adminKeysCreateCmd.RunE cmd client).result = Outcome.returned (some e)) ∧
          (adminKeysCreateCmd.RunE cmd client).out = []) ↔
        (r.Value = "" ∧ r.Token = "" ∧ r.Key = "" ∧ r.APIKey = "")) ∧
      (¬ (r.Value = "" ∧ r.Token = "" ∧ r.Key = "" ∧ r.APIKey = "") →
        (adminKeysCreateCmd.RunE cmd client).out = [r.TokenValue ++ "\n"] ∧
        (adminKeysCreateCmd.RunE cmd client).result = Outcome.returned none) := by
  have htv : r.TokenValue = "" ↔ (r.Value = "" ∧ r.Token = "" ∧ r.Key = "" ∧ r.APIKey = "") := by
    unfold AdminKeyCreateResponse.TokenValue
    by_cases h1 : r.Value = "" <;> by_cases h2 : r.Token = "" <;> by_cases h3 : r.Key = "" <;>
      simp [h1, h2, h3]
  refine ⟨?_, ?_, ?_, ?_⟩
  · unfold AdminKeyCreateResponse.TokenValue
    by_cases h1 : r.Value = "" <;> by_cases h2 : r.Token = "" <;> by_cases h3 : r.Key = "" <;>
      by_cases h4 : r.APIKey = "" <;> simp [List.find?, h1, h2, h3, h4]
  · intro h
    simp [AdminKeyCreateResponse.TokenValue, h]
  · by_cases hv : r.TokenValue = ""
    · simp [adminKeysCreateCmd.RunE, hname, hne, hpost, hv, htv.mp hv]
    · have hnot := fun h => hv (htv.mpr h)
      simp [adminKeysCreateCmd.RunE, hname, hne, hpost, hv]
      intro a b c d
      exact hnot ⟨a, b, c, d⟩
  · intro hnot
    have hv : r.TokenValue ≠ "" := fun h => hnot (htv.mp h)
    simp [adminKeysCreateCmd.RunE, hname, hne, hpost, hv]

theorem create_reports_first_nonempty_secret_witness :
    sampleCreated.TokenValue =
        ([sampleCreated.Value, sampleCreated.Token, sampleCreated.Key, sampleCreated.APIKey].find?
          fun s => decide (s ≠ "")).getD "" ∧
      (sampleCreated.Value ≠ "" → sampleCreated.TokenValue = sampleCreated.Value) ∧
      (((∃ e, (adminKeysCreateCmd.RunE sampleCmd fun _ => Except.ok sampleCreated).result =
            Outcome.returned (some e)) ∧
          (adminKeysCreateCmd.RunE sampleCmd fun _ => Except.ok sampleCreated).out = []) ↔
        (sampleCreated.Value = "" ∧ sampleCreated.Token = "" ∧ sampleCreated.Key = "" ∧
          sampleCreated.APIKey = "")) ∧
      (¬ (sampleCreated.Value = "" ∧ sampleCreated.Token = "" ∧ sampleCreated.Key = "" ∧
          sampleCreated.APIKey = "") →
        (adminKeysCreateCmd.RunE sampleCmd fun _ => Except.ok sampleCreated).out =
          [sampleCreated.TokenValue ++ "\n"] ∧
        (adminKeysCreateCmd.RunE sampleCmd fun _ => Except.ok sampleCreated).result =
          Outcome.returned none) :=
  create_reports_first_nonempty_secret sampleCmd (fun _ => Except.ok sampleCreated) "ci"
    sampleCreated rfl (by decide) (fun _ => rfl)

/-- C8: once the delete call has answered with acknowledgment `res`, both
delete commands (the one for project API keys once its project identifier is
resolved) write the one line `DELETED`, the acknowledgment's `deleted` value,
and an identifier that is the acknowledgment's `id` when that is not empty and
the key ID argument when it is empty; and they return `nil`. -/
theorem delete_reports_id_or_argument (env : Env) (cmd : Cmd) (keyID : String)
    (client : Request → Except GoError DeleteResponse) (res : DeleteResponse)
    (hack : ∀ req, client req = Except.ok res) :
    ∃ reported, (res.ID ≠ "" → reported = res.ID) ∧ (res.ID = "" → reported = keyID) ∧
      (adminKeysDeleteCmd.RunE cmd [keyID] client).out =
        ["DELETED\t" ++ fmtBool res.Deleted ++ "\t" ++ reported ++ "\n"] ∧
      (adminKeysDeleteCmd.RunE cmd [keyID] client).result = Outcome.returned none ∧
      ∀ projectID, resolveProjectID env cmd = Except.ok projectID →
        (projectsAPIKeysDeleteCmd.RunE env cmd [keyID] client).out =
          ["DELETED\t" ++ fmtBool res.Deleted ++ "\t" ++ reported ++ "\n"] ∧
        (projectsAPIKeysDeleteCmd.RunE env cmd [keyID] client).result = Outcome.returned none := by
  refine ⟨if res.ID = "" then keyID else res.ID, ?_, ?_, ?_, ?_, ?_⟩
  · intro h
    simp [h]
  · intro h
    simp [h]
  · simp [adminKeysDeleteCmd.RunE, hack, deletedLine]
  · simp [adminKeysDeleteCmd.RunE, hack]
  · intro projectID hproject
    simp [projectsAPIKeysDeleteCmd.RunE, hproject, hack, deletedLine]

theorem delete_reports_id_or_argument_witness :
    ∃ reported, (sampleAck.ID ≠ "" → reported = sampleAck.ID) ∧
      (sampleAck.ID = "" → reported = "key_9") ∧
      (adminKeysDeleteCmd.RunE sampleCmd ["key_9"] fun _ => Except.ok sampleAck).out =
        ["DELETED\t" ++ fmtBool sampleAck.Deleted ++ "\t" ++ reported ++ "\n"] ∧
      (adminKeysDeleteCmd.RunE sampleCmd ["key_9"] fun _ => Except.ok sampleAck).result =
        Outcome.returned none ∧
      ∀ projectID, resolveProjectID sampleEnv sampleCmd = Except.ok projectID →
        (projectsAPIKeysDeleteCmd.RunE sampleEnv sampleCmd ["key_9"]
            fun _ => Except.ok sampleAck).out =
          ["DELETED\t" ++ fmtBool sampleAck.Deleted ++ "\t" ++ reported ++ "\n"] ∧
        (projectsAPIKeysDeleteCmd.RunE sampleEnv sampleCmd ["key_9"]
            fun _ => Except.ok sampleAck).result = Outcome.returned none :=
  delete_reports_id_or_argument sampleEnv sampleCmd "key_9" (fun _ => Except.ok sampleAck)
    sampleAck (fun _ => rfl)

/-- C10: with flag value `f` and environment value `e` of the project
identifier, `resolveProjectID` returns `f` when `f` is not empty, `e` when `f`
is empty and `e` is not, and the configuration error when both are empty; in
that last case the list and the delete command for project API keys return
that error having written nothing and called the client not once. -/
theorem project_id_resolution (env : Env) (cmd : Cmd) (f : String)
    (hflag : cmd.GetString "project-id" = Except.ok f) :
    (f ≠ "" → resolveProjectID env cmd = Except.ok f) ∧
      (f = "" → env.Getenv "OPENAI_PROJECT_ID" ≠ "" →
        resolveProjectID env cmd = Except.ok (env.Getenv "OPENAI_PROJECT_ID")) ∧
      (f = "" → env.Getenv "OPENAI_PROJECT_ID" = "" →
        resolveProjectID env cmd =
          Except.error "--project-id is required (or set OPENAI_PROJECT_ID)" ∧
        (∀ (client : ListClient ProjectAPIKey) (fuel : Nat),
          projectsAPIKeysListCmd.RunE env cmd client fuel =
            { out := [], calls := [],
              result := Outcome.returned
                (some "--project-id is required (or set OPENAI_PROJECT_ID)") }) ∧
        ∀ (args : List String) (client : Request → Except GoError DeleteResponse),
          projectsAPIKeysDeleteCmd.RunE env cmd args client =
            { out := [], calls := [],
              result := Outcome.returned
                (some "--project-id is required (or set OPENAI_PROJECT_ID)") }) := by
  refine ⟨?_, ?_, ?_⟩
  · intro hf
    simp [resolveProjectID, hflag, hf]
  · intro hf he
    simp [resolveProjectID, hflag, hf, he]
  · intro hf he
    have hres : resolveProjectID env cmd =
        Except.error "--project-id is required (or set OPENAI_PROJECT_ID)" := by
      simp [resolveProjectID, hflag, hf, he]
    refine ⟨hres, ?_, ?_⟩
    · intro client fuel
      simp [projectsAPIKeysListCmd.RunE, hres, failEarly]
    · intro args client
      simp [projectsAPIKeysDeleteCmd.RunE, hres, failEarly]

theorem project_id_resolution_witness :
    ("" ≠ "" → resolveProjectID sampleEnv { flags := [("project-id", FlagValue.string "")] } =
        Except.ok "") ∧
      ("" = "" → sampleEnv.Getenv "OPENAI_PROJECT_ID" ≠ "" →
        resolveProjectID sampleEnv { flags := [("project-id", FlagValue.string "")] } =
          Except.ok (sampleEnv.Getenv "OPENAI_PROJECT_ID")) ∧
      ("" = "" → sampleEnv.Getenv "OPENAI_PROJECT_ID" = "" →
        resolveProjectID sampleEnv { flags := [("project-id", FlagValue.string "")] } =
          Except.error "--project-id is required (or set OPENAI_PROJECT_ID)" ∧
        (∀ (client : ListClient ProjectAPIKey) (fuel : Nat),
          projectsAPIKeysListCmd.RunE sampleEnv { flags := [("project-id", FlagValue.string "")] }
              client fuel =
            { out := [], calls := [],
              result := Outcome.returned
                (some "--project-id is required (or set OPENAI_PROJECT_ID)") }) ∧
        ∀ (args : List String) (client : Request → Except GoError DeleteResponse),
          projectsAPIKeysDeleteCmd.RunE sampleEnv { flags := [("project-id", FlagValue.string "")] }
              args client =
            { out := [], calls := [],
              result := Outcome.returned
                (some "--project-id is required (or set OPENAI_PROJECT_ID)") }) :=
  project_id_resolution sampleEnv { flags := [("project-id", FlagValue.string "")] } "" rfl

/-! ## Timestamps -/

theorem formatUnixSeconds_pos (env : Env) (ts : Int) (h : 0 < ts) :
    ∃ body, formatUnixSeconds env ts = String.mk (body ++ ['Z']) := by
  have hn : ¬ ts ≤ 0 := by omega
  simp only [formatUnixSeconds, hn, if_false, Time.FormatRFC3339, Time.UTC, Time.offset, if_true]
  exact ⟨_, rfl⟩

/-- C7: `formatUnixSeconds` gives the empty string for every `ts ≤ 0` and a
non-empty string for every `ts > 0`; `formatUnixSecondsPtr` gives the empty
string for `nil` and the value of `formatUnixSeconds` on the pointee
otherwise. -/
theorem timestamps_empty_iff_unset (env : Env) (ts : Int) :
    (ts ≤ 0 → formatUnixSeconds env ts = "") ∧
      (0 < ts → formatUnixSeconds env ts ≠ "") ∧
      formatUnixSecondsPtr env none = "" ∧
      (∀ v, formatUnixSecondsPtr env (some v) = formatUnixSeconds env v) ∧
      (ts ≤ 0 → formatUnixSecondsPtr env (some ts) = "") ∧
      (0 < ts → formatUnixSecondsPtr env (some ts) ≠ "") := by
  have hpos : 0 < ts → formatUnixSeconds env ts ≠ "" := by
    intro h heq
    obtain ⟨body, hb⟩ := formatUnixSeconds_pos env ts h
    rw [hb] at heq
    have := congrArg String.data heq
    simp at this
  refine ⟨?_, hpos, rfl, fun _ => rfl, ?_, hpos⟩
  · intro h
    simp [formatUnixSeconds, h]
  · intro h
    simp [formatUnixSecondsPtr, formatUnixSeconds, h]

/-! ### The calendar arithmetic of package `time` -/

/-- The cycle counts `absDate` computes decompose the day number, and the day
of year stays within the length of the year. -/
theorem absYearDay_decomp (abs : Nat) :
    ∃ n1 n2 n3 n4 yd : Nat,
      absYearDay abs = (((400 * n1 + 100 * n2 + 4 * n3 + n4 : Nat) : Int) + absoluteZeroYear, yd) ∧
      abs / 86400 = 146097 * n1 + 36524 * n2 + 1461 * n3 + 365 * n4 + yd ∧
      n2 ≤ 3 ∧ n3 ≤ 24 ∧ n4 ≤ 3 ∧ yd ≤ 365 ∧ (yd = 365 → n4 = 3 ∧ (n3 = 24 → n2 = 3)) := by
  obtain ⟨d0, h0⟩ : ∃ d0, d0 = abs / 86400 := ⟨_, rfl⟩
  obtain ⟨n1, hn1⟩ : ∃ n1, n1 = d0 / 146097 := ⟨_, rfl⟩
  obtain ⟨d1, hd1⟩ : ∃ d1, d1 = d0 - 146097 * n1 := ⟨_, rfl⟩
  obtain ⟨m2, hm2⟩ : ∃ m2, m2 = d1 / 36524 := ⟨_, rfl⟩
  obtain ⟨n2, hn2⟩ : ∃ n2, n2 = m2 - m2 / 4 := ⟨_, rfl⟩
  obtain ⟨d2, hd2⟩ : ∃ d2, d2 = d1 - 36524 * n2 := ⟨_, rfl⟩
  obtain ⟨n3, hn3⟩ : ∃ n3, n3 = d2 / 1461 := ⟨_, rfl⟩
  obtain ⟨d3, hd3⟩ : ∃ d3, d3 = d2 - 1461 * n3 := ⟨_, rfl⟩
  obtain ⟨m4, hm4⟩ : ∃ m4, m4 = d3 / 365 := ⟨_, rfl⟩
  obtain ⟨n4, hn4⟩ : ∃ n4, n4 = m4 - m4 / 4 := ⟨_, rfl⟩
  obtain ⟨yd, hyd⟩ : ∃ yd, yd = d3 - 365 * n4 := ⟨_, rfl⟩
  refine ⟨n1, n2, n3, n4, yd, ?_, ?_⟩
  · subst hyd hn4 hm4 hd3 hn3 hd2 hn2 hm2 hd1 hn1 h0
    rfl
  · have b1 : d1 < 146097 := by omega
    have b2 : m2 ≤ 4 := by omega
    have b3 : n2 ≤ 3 := by omega
    have b4 : d2 < 36525 := by omega
    have b4' : n2 < 3 → d2 < 36524 := by omega
    have b5 : n3 ≤ 24 := by omega
    have b6 : d3 < 1461 := by omega
    have b7 : m4 ≤ 4 := by omega
    have b8 : n4 ≤ 3 := by omega
    have b9 : n4 < 3 → yd < 365 := by omega
    refine ⟨by omega, by omega, by omega, by omega, by omega, ?_⟩
    intro h
    omega

theorem isLeap_eq_leapYear (Y : Nat) : isLeap (Y : Int) = leapYear (Y : Int) := by
  have h4 : (Y : Int).tmod 4 = (Y : Int) % 4 := Int.tmod_eq_emod (Int.natCast_nonneg Y) (by decide)
  have h100 : (Y : Int).tmod 100 = (Y : Int) % 100 :=
    Int.tmod_eq_emod (Int.natCast_nonneg Y) (by decide)
  have h400 : (Y : Int).tmod 400 = (Y : Int) % 400 :=
    Int.tmod_eq_emod (Int.natCast_nonneg Y) (by decide)
  unfold isLeap leapYear
  rw [h4, h100, h400]
  by_cases a : (Y : Int) % 4 = 0 <;> by_cases b : (Y : Int) % 100 = 0 <;>
    by_cases c : (Y : Int) % 400 = 0 <;> simp [a, b, c]

theorem absYearDay_civil (t : Nat) (ht : t ≤ 253402300799) :
    ∃ Y yd : Nat, absYearDay (t + 9223372028715321600) = ((Y : Int), yd) ∧ 1970 ≤ Y ∧ Y ≤ 9999 ∧
      yd < (if leapYear (Y : Int) = true then 366 else 365) ∧
      365 * ((Y : Int) - 1) + ((Y : Int) - 1) / 4 - ((Y : Int) - 1) / 100 + ((Y : Int) - 1) / 400
        - 719162 + (yd : Int) = ((t / 86400 : Nat) : Int) := by
  obtain ⟨n1, n2, n3, n4, yd, heq, hday, h2, h3, h4, hyd, hyd2⟩ :=
    absYearDay_decomp (t + 9223372028715321600)
  have hq : 730692556 ≤ n1 := by omega
  obtain ⟨q, rfl⟩ : ∃ q, n1 = 730692556 + q := ⟨n1 - 730692556, by omega⟩
  refine ⟨400 * q + 100 * n2 + 4 * n3 + n4 + 1, yd, ?_, ?_, ?_, ?_, ?_⟩
  · rw [heq]
    simp only [absoluteZeroYear, Prod.mk.injEq, and_true]
    push_cast
    ring
  · omega
  · omega
  · have hl : leapYear ((400 * q + 100 * n2 + 4 * n3 + n4 + 1 : Nat) : Int) = true ↔
        (n4 = 3 ∧ (n3 < 24 ∨ n2 = 3)) := by
      simp only [leapYear, decide_eq_true_eq]
      omega
    by_cases hc : n4 = 3 ∧ (n3 < 24 ∨ n2 = 3)
    · rw [if_pos (hl.mpr hc)]
      omega
    · rw [if_neg (fun h => hc (hl.mp h))]
      omega
  · push_cast
    have e4 : (400 * (q : Int) + 100 * n2 + 4 * n3 + n4 + 1 - 1) / 4 = 100 * q + 25 * n2 + n3 := by
      omega
    have e100 : (400 * (q : Int) + 100 * n2 + 4 * n3 + n4 + 1 - 1) / 100 = 4 * q + n2 := by
      omega
    have e400 : (400 * (q : Int) + 100 * n2 + 4 * n3 + n4 + 1 - 1) / 400 = q := by
      omega
    rw [e4, e100, e400]
    omega

set_option maxRecDepth 1000000 in
theorem monthDay_spec : ∀ (leap : Bool) (yd : Fin 366),
    yd.val < (if leap = true then 366 else 365) →
      1 ≤ (monthDay leap yd.val).1 ∧ (monthDay leap yd.val).1 ≤ 12 ∧
      1 ≤ (monthDay leap yd.val).2 ∧
      (monthDay leap yd.val).2 ≤ daysInMonth leap (monthDay leap yd.val).1 ∧
      daysBeforeMonth leap (monthDay leap yd.val).1 + ((monthDay leap yd.val).2 - 1) = yd.val := by
  decide

theorem absClock_spec (t : Nat) :
    ∃ h n s : Nat, absClock (t + 9223372028715321600) = (h, n, s) ∧ h < 24 ∧ n < 60 ∧ s < 60 ∧
      h * 3600 + n * 60 + s = t % 86400 := by
  refine ⟨_, _, _, rfl, ?_, ?_, ?_, ?_⟩ <;>
    simp only [secondsPerDay, secondsPerHour, secondsPerMinute] <;> omega

/-! ### Reading back what `appendFormatRFC3339` writes -/

theorem digitVal_utod (k : Nat) (h : k < 10) : digitVal (utod k) = some k := by
  interval_cases k <;> rfl

theorem digits2_utod (x : Nat) (h : x < 100) :
    digits2 (utod (x / 10)) (utod (x % 10)) = some x := by
  have a := digitVal_utod (x / 10) (by omega)
  have b := digitVal_utod (x % 10) (by omega)
  simp only [digits2, a, b, Option.bind_eq_bind, Option.some_bind, Option.pure_def, Option.some.injEq]
  omega

theorem digits4_utod (x : Nat) (h : x < 10000) :
    digits4 (utod (x / 1000)) (utod (x / 100 % 10)) (utod (x / 10 % 10)) (utod (x % 10)) =
      some x := by
  have a := digitVal_utod (x / 1000) (by omega)
  have b := digitVal_utod (x / 100 % 10) (by omega)
  have c := digitVal_utod (x / 10 % 10) (by omega)
  have d := digitVal_utod (x % 10) (by omega)
  simp only [digits4, digits2, a, b, c, d, Option.bind_eq_bind, Option.some_bind, Option.pure_def,
    Option.some.injEq]
  omega

theorem appendInt_two (n : Nat) (h : n < 100) :
    appendInt (n : Int) 2 = [utod (n / 10), utod (n % 10)] := by
  have hn : ¬ ((n : Int) < 0) := by omega
  simp [appendInt, h, hn]

theorem appendInt_four (n : Nat) (h : n < 10000) :
    appendInt (n : Int) 4 =
      [utod (n / 1000), utod (n / 100 % 10), utod (n / 10 % 10), utod (n % 10)] := by
  have hn : ¬ ((n : Int) < 0) := by omega
  simp [appendInt, h, hn]

theorem daysInMonth_le (leap : Bool) (m : Nat) : daysInMonth leap m ≤ 31 := by
  unfold daysInMonth
  split
  · split <;> omega
  · split <;> omega

theorem parse_render (Y m d h n s : Nat) (hY : Y < 10000) (hm1 : 1 ≤ m) (hm : m ≤ 12)
    (hd1 : 1 ≤ d) (hd : d ≤ daysInMonth (leapYear (Y : Int)) m) (hh : h < 24) (hn : n < 60)
    (hs : s < 60) :
    parseRFC3339 (String.mk (appendInt (Y : Int) 4 ++ ['-'] ++ appendInt (m : Int) 2 ++ ['-']
      ++ appendInt (d : Int) 2 ++ ['T'] ++ appendInt (h : Int) 2 ++ [':'] ++ appendInt (n : Int) 2
      ++ [':'] ++ appendInt (s : Int) 2 ++ ['Z'])) =
      some { unix := civilToUnix (Y : Int) m d h n s 0, frac := [], offset := 0 } := by
  have hd31 := daysInMonth_le (leapYear (Y : Int)) m
  rw [appendInt_four Y hY, appendInt_two m (by omega), appendInt_two d (by omega),
    appendInt_two h (by omega), appendInt_two n (by omega), appendInt_two s (by omega)]
  simp only [parseRFC3339, List.cons_append, List.nil_append, List.append_assoc]
  simp only [digits4_utod Y hY, digits2_utod m (by omega), digits2_utod d (by omega),
    digits2_utod h (by omega), digits2_utod n (by omega), digits2_utod s (by omega)]
  simp [parseFrac, parseOffset, hm1, hm, hd1, hd, hh, hn, hs]

theorem abs_of_utc (env : Env) (t : Nat) (ht : t ≤ 9223372036854775807) :
    ((Unix (t : Int)).UTC).abs env = t + 9223372028715321600 := by
  have hc : unixToInternal + internalToAbsolute = 9223372028715321600 := by decide
  simp only [Time.abs, Time.UTC, Unix, Time.offset, hc]
  have h2 : (2 : Int) ^ 64 = 18446744073709551616 := by norm_num
  rw [h2]
  omega

theorem formatUnixSeconds_roundtrip (env : Env) (t : Nat) (h0 : 0 < t) (h1 : t ≤ 253402300799) :
    parseRFC3339 (formatUnixSeconds env (t : Int)) =
      some { unix := (t : Int), frac := [], offset := 0 } := by
  have hn : ¬ ((t : Int) ≤ 0) := by omega
  obtain ⟨Y, yd, hyd, hY0, hY1, hlt, hdays⟩ := absYearDay_civil t h1
  obtain ⟨h, n, s, hclock, hh, hnn, hs, hsum⟩ := absClock_spec t
  have hyd366 : yd < 366 := by split at hlt <;> omega
  obtain ⟨hm1, hm12, hd1, hd, hbefore⟩ := monthDay_spec (leapYear (Y : Int)) ⟨yd, hyd366⟩ hlt
  simp only at hm1 hm12 hd1 hd hbefore
  have hdate : absDate (t + 9223372028715321600) =
      ((Y : Int), (monthDay (leapYear (Y : Int)) yd).1, (monthDay (leapYear (Y : Int)) yd).2) := by
    simp only [absDate, hyd, isLeap_eq_leapYear]
  simp only [formatUnixSeconds, hn, if_false, Time.FormatRFC3339,
    abs_of_utc env t (by omega), hdate, hclock]
  simp only [Time.UTC, Time.offset, if_true]
  rw [parse_render Y _ _ h n s (by omega) hm1 hm12 hd1 hd hh hnn hs]
  simp only [civilToUnix, daysFromCivil, Option.some.injEq, Instant.mk.injEq, and_true]
  have hb : ((daysBeforeMonth (leapYear (Y : Int)) (monthDay (leapYear (Y : Int)) yd).1 : Nat) : Int)
      + (((monthDay (leapYear (Y : Int)) yd).2 - 1 : Nat) : Int) = (yd : Int) := by
    exact_mod_cast hbefore
  have hs2 : ((h * 3600 + n * 60 + s : Nat) : Int) = ((t % 86400 : Nat) : Int) := by
    exact_mod_cast hsum
  rw [hs2]
  have hfin : (365 * ((Y : Int) - 1) + ((Y : Int) - 1) / 4 - ((Y : Int) - 1) / 100
      + ((Y : Int) - 1) / 400 - 719162
      + ((daysBeforeMonth (leapYear (Y : Int)) (monthDay (leapYear (Y : Int)) yd).1 : Nat) : Int)
      + (((monthDay (leapYear (Y : Int)) yd).2 - 1 : Nat) : Int)) = ((t / 86400 : Nat) : Int) := by
    rw [← hdays]
    omega
  rw [hfin]
  push_cast
  omega

/-- C6 as stated fails: the first second of year 10000 is rendered with a
five-digit year, which is not an RFC 3339 timestamp (`date-fullyear` is four
digits), so parsing it back recovers nothing. -/
theorem format_year_10000_is_not_rfc3339 :
    formatUnixSeconds sampleEnv 253402300800 = "10000-01-01T00:00:00Z" ∧
      parseRFC3339 (formatUnixSeconds sampleEnv 253402300800) = none := by
  decide

/-- C6, amended: for every positive `ts` the text of `formatUnixSeconds` ends
in `Z` and is the same whatever the local time zone is; and for every `ts`
from 1 to 253402300799 (the last second of year 9999) reading that text as an
RFC 3339 timestamp gives exactly the instant `ts` seconds after the Unix
epoch, with no fraction and offset zero. -/
theorem format_roundtrip_through_year_9999 (env other : Env) (ts : Int) (hpos : 0 < ts) :
    (ts ≤ 253402300799 →
        parseRFC3339 (formatUnixSeconds env ts) = some { unix := ts, frac := [], offset := 0 }) ∧
      (formatUnixSeconds env ts).data.getLast? = some 'Z' ∧
      formatUnixSeconds other ts = formatUnixSeconds env ts := by
  refine ⟨?_, ?_, ?_⟩
  · intro hle
    obtain ⟨t, rfl⟩ : ∃ t : Nat, ts = (t : Int) := ⟨ts.toNat, by omega⟩
    exact formatUnixSeconds_roundtrip env t (by omega) (by omega)
  · obtain ⟨body, hb⟩ := formatUnixSeconds_pos env ts hpos
    rw [hb]
    simp
  · have hn : ¬ ts ≤ 0 := by omega
    simp only [formatUnixSeconds, hn, if_false, Time.FormatRFC3339, Time.abs, Time.UTC,
      Time.offset, Unix]

theorem format_roundtrip_through_year_9999_witness :
    ((1700000000 : Int) ≤ 253402300799 →
        parseRFC3339 (formatUnixSeconds sampleEnv 1700000000) =
          some { unix := 1700000000, frac := [], offset := 0 }) ∧
      (formatUnixSeconds sampleEnv 1700000000).data.getLast? = some 'Z' ∧
      formatUnixSeconds { Getenv := fun _ => "", LocalOffset := fun _ => -18000 } 1700000000 =
        formatUnixSeconds sampleEnv 1700000000 :=
  format_roundtrip_through_year_9999 sampleEnv
    { Getenv := fun _ => "", LocalOffset := fun _ => -18000 } 1700000000 (by decide)

end OpenAIAdmin
